import Mathlib

/-!
Verification of the little-scale modular-like externals (C sources) against
their natural-language specification.  Each module's per-sample kernel is
shallowly embedded: C doubles become real numbers, per-instance structs become
Lean structures, block processing becomes folds or Nat-indexed iteration, and
the one function-local static variable (decay~'s attack counter) becomes an
explicitly threaded global value.
-/

noncomputable section

/-- The CLAMP macro of the Max SDK: CLAMP(x, lo, hi). -/
def clamp (x lo hi : ℝ) : ℝ := if x < lo then lo else if x > hi then hi else x

/-- fmax(a, fmin(b, x)) pattern used by cycle.fold~ / noises~ for clamping. -/
def fclamp (lo hi x : ℝ) : ℝ := max lo (min hi x)

/-- denormal_fix of ssm2044~ / decay~ (threshold 1e-15): flush tiny values to 0. -/
def denormal_fix (value : ℝ) : ℝ := if |value| < 1 / 10 ^ 15 then 0 else value

/-- Exponential parameter smoothing shared by cycle.fold~ and noises~. -/
def smooth_param (current target smooth_factor : ℝ) : ℝ :=
  current + smooth_factor * (target - current)

/-! ## cycle-2d~: 2D morphing wavetable oscillator -/

/-- The C phase-wrapping loop: while (phase >= 1.0) phase -= 1.0. -/
def wrap_down (p : ℝ) : ℝ :=
  if h : 1 ≤ p then wrap_down (p - 1) else p
termination_by ⌊p⌋₊
decreasing_by
  have h1 : 1 ≤ ⌊p⌋₊ := (Nat.one_le_floor_iff p).mpr h
  have h2 : ⌊p - 1⌋₊ = ⌊p⌋₊ - 1 := by
    have h3 := Nat.floor_sub_nat p 1
    simp only [Nat.cast_one] at h3
    exact h3
  omega

/-- The C phase-wrapping loop: while (phase < 0.0) phase += 1.0. -/
def wrap_up (p : ℝ) : ℝ :=
  if h : p < 0 then wrap_up (p + 1) else p
termination_by (⌈-p⌉).toNat
decreasing_by
  have hpos : 0 < -p := by linarith
  have h1 : 1 ≤ ⌈-p⌉ := by exact_mod_cast Int.ceil_pos.mpr hpos
  have h2 : ⌈-(p + 1)⌉ = ⌈-p⌉ - 1 := by
    have heq : -(p + 1) = -p - 1 := by ring
    rw [heq, Int.ceil_sub_one]
  rw [h2]
  omega

/-- The C cast (int)x, truncation toward zero. -/
def ctrunc (x : ℝ) : ℤ := if x < 0 then -⌊-x⌋ else ⌊x⌋

/-- Linear-interpolating wavetable lookup of cycle-2d~ (WAVETABLE_SIZE = 4096).
The table is modelled as a total function on indices; the C code only ever
reads indices 0..4095. -/
def wavetable_lookup (table : ℕ → ℝ) (phase : ℝ) : ℝ :=
  let scaled := phase * (4096 - 1)
  let index := ctrunc scaled
  let fract := scaled - index
  if 4096 - 1 ≤ index then table (4096 - 1)
  else table index.toNat * (1 - fract) + table (index.toNat + 1) * fract

def generate_sine_table (size : ℕ) (i : ℕ) : ℝ :=
  Real.sin (2 * Real.pi * ((i : ℝ) / (size : ℝ)))

def generate_triangle_table (size : ℕ) (i : ℕ) : ℝ :=
  let phase : ℝ := (i : ℝ) / (size : ℝ)
  if phase < 0.25 then 4 * phase
  else if phase < 0.75 then 2 - 4 * phase
  else 4 * phase - 4

def generate_saw_table (size : ℕ) (i : ℕ) : ℝ :=
  let phase : ℝ := (i : ℝ) / (size : ℝ)
  2 * phase - 1

def generate_square_table (size : ℕ) (i : ℕ) : ℝ :=
  let phase : ℝ := (i : ℝ) / (size : ℝ)
  if phase < 0.5 then 1 else -1

def generate_sine_harmonic_table (size : ℕ) (harmonic : ℕ) (i : ℕ) : ℝ :=
  Real.sin (2 * Real.pi * ((i : ℝ) / (size : ℝ)) * (harmonic : ℝ))

/-- Corner table set produced by init_corner_tables for a given corner_mode.
Corner indices: 0 = sine (0,0), 1 = triangle (0,1), 2 = saw (1,0), 3 = square (1,1). -/
def init_corner_tables (corner_mode : ℤ) : Fin 4 → ℕ → ℝ :=
  if corner_mode = 1 then
    fun c => match c with
      | 0 => generate_sine_table 4096
      | 1 => generate_sine_harmonic_table 4096 2
      | 2 => generate_sine_harmonic_table 4096 3
      | 3 => generate_sine_harmonic_table 4096 4
  else
    fun c => match c with
      | 0 => generate_sine_table 4096
      | 1 => generate_triangle_table 4096
      | 2 => generate_saw_table 4096
      | 3 => generate_square_table 4096

structure CustomTable where
  wavetable : ℕ → ℝ
  x_pos : ℝ
  y_pos : ℝ
  active : Bool

structure Cycle2dState where
  phase : ℝ
  sr : ℝ
  sr_inv : ℝ
  freq_float : ℝ
  x_float : ℝ
  y_float : ℝ
  phase_offset_float : ℝ
  freq_has_signal : Bool
  x_has_signal : Bool
  y_has_signal : Bool
  phase_has_signal : Bool
  corner_tables : Fin 4 → ℕ → ℝ
  custom_tables : ℕ → CustomTable
  num_custom_tables : ℕ
  interpolation : ℤ
  corner_mode : ℤ
  table_size : ℤ

/-- Inverse-distance weighting accumulation over the active custom tables
(the for-loop inside bilinear_interpolate); returns (weighted_sum, total_weight). -/
def custom_weights (customs : ℕ → CustomTable) (num : ℕ) (x_pos y_pos phase : ℝ) :
    ℝ × ℝ :=
  (List.range num).foldl
    (fun acc i =>
      let t := customs i
      if t.active then
        let dx := x_pos - t.x_pos
        let dy := y_pos - t.y_pos
        let distance := Real.sqrt (dx * dx + dy * dy)
        let weight := 1 / (1 + distance * 2)
        let custom_sample := wavetable_lookup t.wavetable phase
        (acc.1 + custom_sample * weight, acc.2 + weight)
      else acc)
    (0, 0)

def bilinear_interpolate (x : Cycle2dState) (x_pos y_pos phase : ℝ) : ℝ :=
  let sample_00 := wavetable_lookup (x.corner_tables 0) phase
  let sample_01 := wavetable_lookup (x.corner_tables 1) phase
  let sample_10 := wavetable_lookup (x.corner_tables 2) phase
  let sample_11 := wavetable_lookup (x.corner_tables 3) phase
  let ws := custom_weights x.custom_tables x.num_custom_tables x_pos y_pos phase
  let weighted_sum := ws.1
  let total_weight := ws.2
  let lerp_x0 := sample_00 * (1 - x_pos) + sample_10 * x_pos
  let lerp_x1 := sample_01 * (1 - x_pos) + sample_11 * x_pos
  let corner_result := lerp_x0 * (1 - y_pos) + lerp_x1 * y_pos
  if total_weight > 0 then
    let custom_result := weighted_sum / total_weight
    let blend_factor := total_weight / (total_weight + 1)
    corner_result * (1 - blend_factor) + custom_result * blend_factor
  else corner_result

def nearest_neighbor_interpolate (x : Cycle2dState) (x_pos y_pos phase : ℝ) : ℝ :=
  let corner_index : Fin 4 :=
    if x_pos < 0.5 ∧ y_pos < 0.5 then 0
    else if x_pos < 0.5 ∧ ¬ y_pos < 0.5 then 1
    else if ¬ x_pos < 0.5 ∧ y_pos < 0.5 then 2
    else 3
  wavetable_lookup (x.corner_tables corner_index) phase

/-- One loop iteration of cycle2d_perform64: returns the output sample and the
state with the advanced, wrapped phase. -/
def cycle2d_sample (x : Cycle2dState) (freq_in x_in y_in phase_offset_in : ℝ) :
    ℝ × Cycle2dState :=
  let freq0 := if x.freq_has_signal then freq_in else x.freq_float
  let x_pos0 := if x.x_has_signal then x_in else x.x_float
  let y_pos0 := if x.y_has_signal then y_in else x.y_float
  let phase_offset0 := if x.phase_has_signal then phase_offset_in else x.phase_offset_float
  let freq := clamp freq0 0 20000
  let x_pos := clamp x_pos0 0 1
  let y_pos := clamp y_pos0 0 1
  let phase_offset := clamp phase_offset0 0 1
  let phase := wrap_up (wrap_down (x.phase + freq * x.sr_inv))
  let read_phase := wrap_up (wrap_down (phase + phase_offset))
  let sample :=
    if x.interpolation = 1 then nearest_neighbor_interpolate x x_pos y_pos read_phase
    else bilinear_interpolate x x_pos y_pos read_phase
  (sample, { x with phase := phase })

/-- cycle2d_perform64 over a whole signal block. -/
def cycle2d_perform64 (x : Cycle2dState) (ins : List (ℝ × ℝ × ℝ × ℝ)) :
    List ℝ × Cycle2dState :=
  match ins with
  | [] => ([], x)
  | i :: rest =>
    let r := cycle2d_sample x i.1 i.2.1 i.2.2.1 i.2.2.2
    let rec' := cycle2d_perform64 r.2 rest
    (r.1 :: rec'.1, rec'.2)

/-- An external named buffer as seen through the Max buffer API:
whether buffer_locksamples succeeds, the frame count, and the sample memory. -/
structure MaxBuffer where
  lock_ok : Bool
  frames : ℕ
  samples : ℤ → ℝ

/-- The buffer message handler cycle2d_buffer.  The buffer environment maps
names to buffers (none = buffer_ref_getobject returned NULL).  argc is the
number of message arguments. -/
def cycle2d_buffer (env : String → Option MaxBuffer) (x : Cycle2dState)
    (argc : ℕ) (name : String) (xp yp : ℝ) (offset : ℤ) : Cycle2dState :=
  if argc < 3 then x
  else if 16 ≤ x.num_custom_tables then x
  else
    let x_pos := clamp xp 0 1
    let y_pos := clamp yp 0 1
    match env name with
    | none => x
    | some buffer =>
      if ¬ buffer.lock_ok then x
      else if buffer.frames = 0 then x
      else
        let table : CustomTable :=
          { wavetable := fun i =>
              let read_index := Int.tmod (offset + i) buffer.frames
              if read_index < (buffer.frames : ℤ) then buffer.samples read_index
              else 0
            x_pos := x_pos
            y_pos := y_pos
            active := true }
        { x with
          custom_tables := Function.update x.custom_tables x.num_custom_tables table
          num_custom_tables := x.num_custom_tables + 1 }

/-! ## cycle.fold~: wave folding oscillator with phase warping -/

structure CycleFoldState where
  phase : ℝ
  sr : ℝ
  sr_inv : ℝ
  folding_algorithm : ℤ
  antialiasing_enabled : Bool
  dc_blocking_enabled : Bool
  warp_mode : ℤ
  frequency_float : ℝ
  fold_amount_float : ℝ
  warp_amount_float : ℝ
  frequency_has_signal : Bool
  fold_has_signal : Bool
  warp_has_signal : Bool
  fold_smooth : ℝ
  warp_smooth : ℝ
  smooth_factor : ℝ
  dc_block_x1 : ℝ
  dc_block_y1 : ℝ

def warp_phase_improved (phase warp_amount : ℝ) (warp_mode : ℤ) : ℝ :=
  if |warp_amount| < 0.0001 then phase
  else if warp_mode = 0 then
    if warp_amount > 0 then
      let curve := 1 + warp_amount * 3
      Real.rpow phase (1 / curve)
    else
      let curve := 1 + (-warp_amount) * 3
      1 - Real.rpow (1 - phase) (1 / curve)
  else
    let curve := 1 + |warp_amount| * 5
    if warp_amount > 0 then Real.rpow phase curve
    else 1 - Real.rpow (1 - phase) curve

/-- The reflection folding while-loop of fold_wave_improved, with explicit
iteration fuel.  For the inputs reached from the oscillator (|input| <= 1,
threshold >= 0.01) the loop provably stops well within 1000 iterations, so
running it with fuel 1000 computes the loop's exit value. -/
def reflect_iter : ℕ → ℝ → ℝ → ℝ
  | 0, _, output => output
  | fuel + 1, threshold, output =>
    if output > threshold then reflect_iter fuel threshold (2 * threshold - output)
    else if output < -threshold then reflect_iter fuel threshold (-2 * threshold - output)
    else output

/-- The effective fold amount after the anti-aliasing safeguard of
fold_wave_improved. -/
def safe_fold_amount (antialiasing : Bool) (fold_amount frequency sr : ℝ) : ℝ :=
  let safe := max 0 fold_amount
  if antialiasing ∧ frequency > 20 then
    let nyquist := sr * 0.5
    let max_harmonics := nyquist / frequency
    let safe_fold_limit := min 1 (max_harmonics / 10)
    min safe safe_fold_limit
  else safe

def fold_wave_improved (antialiasing : Bool) (folding_algorithm : ℤ)
    (input fold_amount frequency sr : ℝ) : ℝ :=
  let safe := safe_fold_amount antialiasing fold_amount frequency sr
  if folding_algorithm = 0 then
    let threshold0 := 1 - safe * 0.99
    let threshold := if threshold0 < 0.01 then 0.01 else threshold0
    reflect_iter 1000 threshold input
  else if folding_algorithm = 1 then
    if safe ≤ 0 then input
    else
      let drive := 1 + safe * 8
      Real.tanh (input * drive) / Real.tanh drive
  else
    let threshold := 1 - safe * 0.5
    let reflected :=
      if input > threshold then threshold + (input - threshold) * 0.5
      else if input < -threshold then -threshold + (input + threshold) * 0.5
      else input
    let drive := 1 + safe * 4
    let soft := Real.tanh (reflected * drive) / Real.tanh drive
    reflected * (1 - safe * 0.5) + soft * (safe * 0.5)

/-- cycle.fold~'s DC blocker: returns (output, new_x1, new_y1). -/
def cf_dc_block (x1 y1 input : ℝ) : ℝ × ℝ × ℝ :=
  let output := input - x1 + 0.995 * y1
  (output, input, output)

/-- One loop iteration of cyclefold_perform64.  Note the phase wrap: a single
if (phase >= 1.0) phase -= 1.0, not a loop, followed by the denormal flush. -/
def cyclefold_sample (x : CycleFoldState) (freq_in fold_in warp_in : ℝ) :
    ℝ × CycleFoldState :=
  let frequency0 := if x.frequency_has_signal then freq_in else x.frequency_float
  let fold_target0 := if x.fold_has_signal then fold_in else x.fold_amount_float
  let warp_target0 := if x.warp_has_signal then warp_in else x.warp_amount_float
  let frequency := fclamp 0.001 20000 frequency0
  let fold_target := fclamp 0 1 fold_target0
  let warp_target := fclamp (-1) 1 warp_target0
  let fold_amount :=
    if x.fold_has_signal then smooth_param x.fold_smooth fold_target (x.smooth_factor * 0.1)
    else smooth_param x.fold_smooth fold_target x.smooth_factor
  let warp_amount :=
    if x.warp_has_signal then smooth_param x.warp_smooth warp_target (x.smooth_factor * 0.1)
    else smooth_param x.warp_smooth warp_target x.smooth_factor
  let warped_phase := warp_phase_improved x.phase warp_amount x.warp_mode
  let sine_wave := Real.sin (warped_phase * (2 * Real.pi))
  let folded_wave :=
    fold_wave_improved x.antialiasing_enabled x.folding_algorithm
      sine_wave fold_amount frequency x.sr
  let dc := cf_dc_block x.dc_block_x1 x.dc_block_y1 folded_wave
  let output := if x.dc_blocking_enabled then dc.1 else folded_wave
  let phase1 := x.phase + frequency * x.sr_inv
  let phase2 := if phase1 ≥ 1 then phase1 - 1 else phase1
  let phase3 := if phase2 < 0 then phase2 + 1 else phase2
  let phase4 := if |phase3| < 1 / 10 ^ 15 then 0 else phase3
  (output,
   { x with
     fold_smooth := fold_amount
     warp_smooth := warp_amount
     dc_block_x1 := if x.dc_blocking_enabled then dc.2.1 else x.dc_block_x1
     dc_block_y1 := if x.dc_blocking_enabled then dc.2.2 else x.dc_block_y1
     phase := phase4 })

def cyclefold_perform64 (x : CycleFoldState) (ins : List (ℝ × ℝ × ℝ)) :
    List ℝ × CycleFoldState :=
  match ins with
  | [] => ([], x)
  | i :: rest =>
    let r := cyclefold_sample x i.1 i.2.1 i.2.2
    let rest' := cyclefold_perform64 r.2 rest
    (r.1 :: rest'.1, rest'.2)

/-- The state a fresh cycle.fold~ instance has after cyclefold_new with
arguments (frequency, fold, warp) and after dsp64 set the sample rate. -/
def cyclefold_new (frequency fold warp sr : ℝ) : CycleFoldState :=
  { phase := 0
    sr := sr
    sr_inv := 1 / sr
    folding_algorithm := 0
    antialiasing_enabled := true
    dc_blocking_enabled := true
    warp_mode := 0
    frequency_float := fclamp 0.001 20000 frequency
    fold_amount_float := fclamp 0 1 fold
    warp_amount_float := fclamp (-1) 1 warp
    frequency_has_signal := false
    fold_has_signal := false
    warp_has_signal := false
    fold_smooth := fclamp 0 1 fold
    warp_smooth := fclamp (-1) 1 warp
    smooth_factor := 1 - Real.exp (-1 / (0.01 * sr))
    dc_block_x1 := 0
    dc_block_y1 := 0 }

/-! ## ssm2044~: 4-pole ZDF low-pass filter emulation -/

structure Ssm2044Params where
  sr : ℝ
  character_mode : ℤ
  self_oscillation : Bool
  warmth_amount : ℝ
  resonance_compensation : Bool

structure Ssm2044State where
  state1 : ℝ
  state2 : ℝ
  state3 : ℝ
  state4 : ℝ
  feedback_sample : ℝ

def ssm2044_initial_state : Ssm2044State :=
  { state1 := 0, state2 := 0, state3 := 0, state4 := 0, feedback_sample := 0 }

def soft_saturation (input drive : ℝ) : ℝ :=
  if drive ≤ 0 then input
  else
    let driven := input * drive
    let saturated := Real.tanh driven
    saturated / drive

/-- compute_filter_coefficients: returns (g, k). -/
def compute_filter_coefficients (p : Ssm2044Params) (cutoff resonance : ℝ) : ℝ × ℝ :=
  let cutoff1 := clamp cutoff 20 (p.sr * 0.45)
  let omega := 2 * Real.pi * cutoff1
  let omega_warped := Real.tan (omega * (1 / p.sr) * 0.5)
  let g0 := omega_warped / (1 + omega_warped)
  let g := clamp g0 0 0.99
  let k0 := resonance * 4
  let k := if p.resonance_compensation then k0 * (1 / (1 + resonance * 0.3)) else k0
  (g, k)

def ssm2044_process_sample (p : Ssm2044Params) (x : Ssm2044State)
    (input cutoff resonance gain : ℝ) : ℝ × Ssm2044State :=
  let gk := compute_filter_coefficients p cutoff resonance
  let g := gk.1
  let k := gk.2
  let scaled_input := input * gain
  let drive_amount : ℝ :=
    if p.character_mode = 0 then 1.5 * 0.5
    else if p.character_mode = 2 then 1.5 * 2
    else 1.5
  let saturated_input := soft_saturation scaled_input drive_amount
  let feedback_drive := 2 * p.warmth_amount
  let saturated_feedback := soft_saturation x.feedback_sample feedback_drive
  let actual_k := if p.self_oscillation then k else k * 0.8
  let fb_input := saturated_input + actual_k * saturated_feedback
  let stage1_out := x.state1 + g * (fb_input - x.state1)
  let stage2_out := x.state2 + g * (stage1_out - x.state2)
  let stage3_out := x.state3 + g * (stage2_out - x.state3)
  let stage4_out := x.state4 + g * (stage3_out - x.state4)
  (stage4_out,
   { state1 := denormal_fix stage1_out
     state2 := denormal_fix stage2_out
     state3 := denormal_fix stage3_out
     state4 := denormal_fix stage4_out
     feedback_sample := stage4_out })

/-- One loop iteration of ssm2044_perform64 (per-sample parameter clamping
followed by the filter core and the output denormal fix). -/
def ssm2044_sample (p : Ssm2044Params) (x : Ssm2044State)
    (audio cutoff_in resonance_in gain_in : ℝ) : ℝ × Ssm2044State :=
  let cutoff := clamp cutoff_in 20 20000
  let resonance := clamp resonance_in 0 4
  let gain := clamp gain_in 0 4
  let r := ssm2044_process_sample p x audio cutoff resonance gain
  (denormal_fix r.1, r.2)

/-- Filter state after n samples of the input stream ins, starting from the
freshly constructed (all-zero) state. -/
def ssm2044_states (p : Ssm2044Params) (ins : ℕ → ℝ × ℝ × ℝ × ℝ) : ℕ → Ssm2044State
  | 0 => ssm2044_initial_state
  | n + 1 =>
    let i := ins n
    (ssm2044_sample p (ssm2044_states p ins n) i.1 i.2.1 i.2.2.1 i.2.2.2).2

/-- Output sample n of ssm2044_perform64 run from the initial state. -/
def ssm2044_out (p : Ssm2044Params) (ins : ℕ → ℝ × ℝ × ℝ × ℝ) (n : ℕ) : ℝ :=
  let i := ins n
  (ssm2044_sample p (ssm2044_states p ins n) i.1 i.2.1 i.2.2.1 i.2.2.2).1

/-- The concrete ssm2044~ configuration used to refute claim C3: default
attributes except warmth = 0; cutoff fixed at sr/4 so that the integrator
gain is exactly 1/2; resonance 3.5 (the documented self-oscillation
threshold); unity gain; constant +1 audio input. -/
def ssmC3Params : Ssm2044Params :=
  { sr := 44100
    character_mode := 1
    self_oscillation := true
    warmth_amount := 0
    resonance_compensation := true }

def ssmC3Inputs : ℕ → ℝ × ℝ × ℝ × ℝ := fun _ => (1, 11025, 3.5, 1)

def ssmC3_out (n : ℕ) : ℝ := ssm2044_out ssmC3Params ssmC3Inputs n

/-! ## decay~: exponential decay envelope generator

The AD-mode attack counter is a function-local static in the C source
(shared by all instances and never reset); it is modelled here as an explicit
global value threaded alongside the per-instance state. -/

structure DecayState where
  decay_time_float : ℝ
  curve_float : ℝ
  peak : ℝ
  time_has_signal : Bool
  curve_has_signal : Bool
  envelope : ℝ
  is_active : Bool
  retrig_mode : Bool
  smooth_samples_setting : ℕ
  smooth_samples : ℕ
  smooth_start_level : ℝ
  sr : ℝ
  sr_inv : ℝ
  envelope_mode : ℤ
  curve_response : ℤ
  click_protection : ℕ
  retrigger_mode : Bool

def decay_calculate_coefficient (decay_time sample_rate : ℝ) : ℝ :=
  if decay_time ≤ 0 then 0
  else
    let time_constant := decay_time * sample_rate
    Real.exp (-1 / time_constant)

def decay_apply_curve (linear_value curve : ℝ) : ℝ :=
  if curve = 0 ∨ linear_value ≤ 0 then linear_value
  else if curve < 0 then Real.rpow linear_value (1 + |curve|)
  else Real.rpow linear_value (1 / (1 + curve))

/-- decay_bang: trigger the envelope.  Touches only per-instance state; the
static attack counter is not in scope here, exactly as in the C source. -/
def decay_bang (x : DecayState) : DecayState :=
  let smooth_start_level := x.envelope
  let envelope := if x.retrigger_mode ∨ ¬ x.is_active then x.peak else x.envelope
  let smooth_samples :=
    if 0 < x.click_protection ∧ |envelope - smooth_start_level| > 0.001
    then x.click_protection else 0
  { x with
    smooth_start_level := smooth_start_level
    envelope := envelope
    smooth_samples := smooth_samples
    is_active := true }

/-- The curve override applied when the curve inlet has no signal
(the switch on curve_response inside decay_perform64). -/
def decay_final_curve (curve_has_signal : Bool) (curve_response : ℤ) (curve : ℝ) : ℝ :=
  if ¬ curve_has_signal then
    if curve_response = 0 then -1.5
    else if curve_response = 1 then 0
    else if curve_response = 2 then 1.5
    else curve
  else curve

/-- The AD-mode attack block of decay_perform64: the function-local static
attack counter g scales the output during the first 44 AD samples and is
never reset.  Returns (output, new counter). -/
def decay_ad (envelope_mode : ℤ) (g : ℕ) (output0 : ℝ) : ℝ × ℕ :=
  if envelope_mode = 1 then
    (if g < 44 then (output0 * (g : ℝ) / 44, g + 1) else (output0, 44))
  else (output0, g)

/-- The click-protection smoothing block of decay_perform64:
returns (output, new smooth_samples). -/
def decay_smoothing (click_protection smooth_samples : ℕ)
    (smooth_start_level output2 : ℝ) : ℝ × ℕ :=
  if 0 < smooth_samples then
    let progress := ((click_protection : ℝ) - smooth_samples) / (click_protection : ℝ)
    (smooth_start_level + (output2 - smooth_start_level) * progress, smooth_samples - 1)
  else (output2, smooth_samples)

/-- One loop iteration of decay_perform64.  g is the function-local static
attack_samples counter; the result is (output, new counter, new state). -/
def decay_sample (g : ℕ) (x : DecayState) (time_in curve_in : ℝ) :
    ℝ × ℕ × DecayState :=
  let decay_time := clamp (if x.time_has_signal then time_in else x.decay_time_float) 0.001 60
  let curve := clamp (if x.curve_has_signal then curve_in else x.curve_float) (-3) 3
  if x.is_active then
    let decay_coeff := decay_calculate_coefficient decay_time x.sr
    let envelope1 := x.envelope * decay_coeff
    let output0 :=
      decay_apply_curve (envelope1 / x.peak)
        (decay_final_curve x.curve_has_signal x.curve_response curve) * x.peak
    let ad := decay_ad x.envelope_mode g output0
    let stopped := envelope1 < 1 / 10 ^ 15 ∨ ad.1 < 1 / 10 ^ 15
    let sm := decay_smoothing x.click_protection x.smooth_samples x.smooth_start_level
      (if stopped then 0 else ad.1)
    (denormal_fix sm.1, ad.2,
     { x with
       envelope := if stopped then 0 else envelope1
       is_active := if stopped then false else true
       smooth_samples := sm.2 })
  else
    let sm := decay_smoothing x.click_protection x.smooth_samples x.smooth_start_level 0
    (denormal_fix sm.1, g, { x with smooth_samples := sm.2 })

/-- The state a fresh decay~ instance has after decay_new with arguments
(decay_time, curve, peak) at the given sample rate, default attributes. -/
def decay_new (decay_time curve peak sr : ℝ) : DecayState :=
  { decay_time_float := clamp decay_time 0.001 60
    curve_float := clamp curve (-3) 3
    peak := clamp peak 0 1
    time_has_signal := false
    curve_has_signal := false
    envelope := 0
    is_active := false
    retrig_mode := true
    smooth_samples_setting := 0
    smooth_samples := 0
    smooth_start_level := 0
    sr := sr
    sr_inv := 1 / sr
    envelope_mode := 0
    curve_response := 1
    click_protection := 0
    retrigger_mode := true }

/-- (counter, state) after n samples of decay_perform64. -/
def decay_states (g : ℕ) (x : DecayState) (ins : ℕ → ℝ × ℝ) : ℕ → ℕ × DecayState
  | 0 => (g, x)
  | n + 1 =>
    let s := decay_states g x ins n
    let i := ins n
    (decay_sample s.1 s.2 i.1 i.2).2

/-- Output sample n of decay_perform64. -/
def decay_out (g : ℕ) (x : DecayState) (ins : ℕ → ℝ × ℝ) (n : ℕ) : ℝ :=
  let s := decay_states g x ins n
  let i := ins n
  (decay_sample s.1 s.2 i.1 i.2).1

/-- The claim C5 scenario: decay~ 1.0 0.0 1.0 at 44100 Hz, bang, then run. -/
def decayC5_out (n : ℕ) : ℝ :=
  decay_out 0 (decay_bang (decay_new 1 0 1 44100)) (fun _ => (0, 0)) n

/-- Events a decay~ instance can receive on the per-sample timeline:
a bang message or one sample tick (with the two inlet stream values). -/
inductive DecayEvent where
  | bang : DecayEvent
  | tick : ℝ → ℝ → DecayEvent

/-- Run a sequence of events against an instance, threading the static attack
counter; returns (outputs of the ticks, final counter, final state). -/
def decay_run_events (g : ℕ) (x : DecayState) :
    List DecayEvent → List ℝ × ℕ × DecayState
  | [] => ([], g, x)
  | DecayEvent.bang :: rest => decay_run_events g (decay_bang x) rest
  | DecayEvent.tick t c :: rest =>
    let r := decay_sample g x t c
    let rest' := decay_run_events r.2.1 r.2.2 rest
    (r.1 :: rest'.1, rest'.2)

/-! ## noises~: multi-type noise generator with morphing -/

structure NoisesState where
  sr : ℝ
  sr_inv : ℝ
  morphing_enabled : Bool
  dc_blocking_enabled : Bool
  seed_auto : Bool
  filter_quality : ℤ
  type_float : ℝ
  amplitude_float : ℝ
  type_has_signal : Bool
  amplitude_has_signal : Bool
  type_smooth : ℝ
  amplitude_smooth : ℝ
  smooth_factor : ℝ
  rng_state : ℕ
  pink_rows : ℕ → ℝ
  pink_running_sum : ℝ
  pink_index : ℕ
  pink_index_mask : ℕ
  pink_scalar : ℝ
  brown_state : ℝ
  brown_leak : ℝ
  prev_white : ℝ
  prev_blue : ℝ
  grey_x1 : ℝ
  grey_x2 : ℝ
  grey_y1 : ℝ
  grey_y2 : ℝ
  grey_a1 : ℝ
  grey_a2 : ℝ
  grey_b0 : ℝ
  grey_b1 : ℝ
  grey_b2 : ℝ
  dc_block_x1 : ℝ
  dc_block_y1 : ℝ

/-- xorshift32 on the uint32 state (numbers below 2^32). -/
def xorshift32 (state : ℕ) : ℕ :=
  let x1 := Nat.xor state (state <<< 13) % 2 ^ 32
  let x2 := Nat.xor x1 (x1 >>> 17)
  Nat.xor x2 (x2 <<< 5) % 2 ^ 32

/-- Map a uint32 to [-1, 1]: value / UINT32_MAX * 2 - 1. -/
def uint32_to_bipolar (r : ℕ) : ℝ := (r : ℝ) / 4294967295 * 2 - 1

def noises_generate_white (x : NoisesState) : ℝ × NoisesState :=
  let r := xorshift32 x.rng_state
  (uint32_to_bipolar r, { x with rng_state := r })

/-- The trailing-zero-counting while loop in noises_generate_pink. -/
def pink_trailing_zeros (n : ℕ) : ℕ :=
  if h : n = 0 then 0
  else if n % 2 = 1 then 0
  else pink_trailing_zeros (n / 2) + 1
termination_by n
decreasing_by exact Nat.div_lt_self (Nat.pos_of_ne_zero h) one_lt_two

def noises_generate_pink (x : NoisesState) : ℝ × NoisesState :=
  let idx := (x.pink_index + 1) &&& x.pink_index_mask
  let x0 := { x with pink_index := idx }
  let x2 :=
    if idx ≠ 0 then
      let num_zeros := pink_trailing_zeros idx
      if num_zeros < 5 then
        let r := xorshift32 x0.rng_state
        let new_random := uint32_to_bipolar r
        { x0 with
          rng_state := r
          pink_running_sum := x0.pink_running_sum - x0.pink_rows num_zeros + new_random
          pink_rows := Function.update x0.pink_rows num_zeros new_random }
      else x0
    else
      let r0 := xorshift32 x0.rng_state
      let v0 := uint32_to_bipolar r0
      let r1 := xorshift32 r0
      let v1 := uint32_to_bipolar r1
      let r2 := xorshift32 r1
      let v2 := uint32_to_bipolar r2
      let r3 := xorshift32 r2
      let v3 := uint32_to_bipolar r3
      let r4 := xorshift32 r3
      let v4 := uint32_to_bipolar r4
      { x0 with
        rng_state := r4
        pink_running_sum := 0 + v0 + v1 + v2 + v3 + v4
        pink_rows := fun i =>
          match i with
          | 0 => v0 | 1 => v1 | 2 => v2 | 3 => v3 | 4 => v4
          | _ + 5 => x0.pink_rows (i : ℕ) }
  let r := xorshift32 x2.rng_state
  let white := uint32_to_bipolar r
  ((x2.pink_running_sum + white) * 0.578, { x2 with rng_state := r })

def noises_dc_block (x : NoisesState) (input : ℝ) : ℝ × NoisesState :=
  let output := input - x.dc_block_x1 + 0.995 * x.dc_block_y1
  (output, { x with dc_block_x1 := input, dc_block_y1 := output })

def noises_generate_brown (x : NoisesState) : ℝ × NoisesState :=
  let w := noises_generate_white x
  let x1 := w.2
  let brown_state := x1.brown_leak * x1.brown_state + w.1 * 0.1
  let x2 := { x1 with brown_state := brown_state }
  let db := noises_dc_block x2 brown_state
  let brown_output := if x.dc_blocking_enabled then db.1 else brown_state
  let x3 := if x.dc_blocking_enabled then db.2 else x2
  (brown_output * 2.25, x3)

def noises_generate_blue (x : NoisesState) : ℝ × NoisesState :=
  let w := noises_generate_white x
  let x1 := w.2
  let blue_output := w.1 - x1.prev_white
  (blue_output * 0.6, { x1 with prev_white := w.1 })

def noises_generate_violet (x : NoisesState) : ℝ × NoisesState :=
  let b := noises_generate_blue x
  let x1 := b.2
  let violet_output := b.1 - x1.prev_blue
  (violet_output * 0.6, { x1 with prev_blue := b.1 })

def noises_generate_grey (x : NoisesState) : ℝ × NoisesState :=
  let w := noises_generate_white x
  let x1 := w.2
  let output := x1.grey_b0 * w.1 + x1.grey_b1 * x1.grey_x1 + x1.grey_b2 * x1.grey_x2
                - x1.grey_a1 * x1.grey_y1 - x1.grey_a2 * x1.grey_y2
  let x2 := { x1 with
    grey_x2 := x1.grey_x1
    grey_x1 := w.1
    grey_y2 := x1.grey_y1
    grey_y1 := output }
  let output1 :=
    if x.filter_quality = 0 then output * 0.5
    else if x.filter_quality = 2 then output * 1.2
    else output
  (output1 * 0.72, x2)

def noises_generate_velvet (x : NoisesState) : ℝ × NoisesState :=
  let impulse_probability := 2205 / x.sr
  let r := xorshift32 x.rng_state
  let random_val := (r : ℝ) / 4294967295
  if random_val < impulse_probability then
    let r2 := xorshift32 r
    let output : ℝ := if r2 &&& 1 ≠ 0 then 1 else -1
    (output * 0.8, { x with rng_state := r2 })
  else (0 * 0.8, { x with rng_state := r })

/-- The seven per-sample noise values generated (in order) at the top of
noises_morph_types, together with the state after all the generators ran.
Indices beyond 6 are never read. -/
def noises_noise_types (x : NoisesState) : (ℕ → ℝ) × NoisesState :=
  let w := noises_generate_white x
  let pk := noises_generate_pink w.2
  let br := noises_generate_brown pk.2
  let bl := noises_generate_blue br.2
  let vi := noises_generate_violet bl.2
  let gr := noises_generate_grey vi.2
  let ve := noises_generate_velvet gr.2
  (fun i => match i with
    | 0 => w.1 | 1 => pk.1 | 2 => br.1 | 3 => bl.1 | 4 => vi.1 | 5 => gr.1 | 6 => ve.1
    | _ + 7 => 0,
   ve.2)

def noises_morph_types (x : NoisesState) (type_param : ℝ) : ℝ × NoisesState :=
  let nt := noises_noise_types x
  let types := nt.1
  let x1 := nt.2
  let type_int := ctrunc type_param
  let type_frac := type_param - type_int
  if type_param ≤ 0 then (types 0 * 0.4, x1)
  else if type_param ≥ 6 then (types 6 * 0.4, x1)
  else if ¬ x.morphing_enabled then
    let nearest := max 0 (min 6 (ctrunc (type_param + 0.5)))
    (types nearest.toNat * 0.4, x1)
  else if type_frac < 0.0001 then (types type_int.toNat * 0.4, x1)
  else
    let smooth_frac := type_frac * type_frac * (3 - 2 * type_frac)
    let noise_a := types type_int.toNat
    let noise_b := types (type_int.toNat + 1)
    let mix_a := Real.cos (smooth_frac * Real.pi * 0.5)
    let mix_b := Real.sin (smooth_frac * Real.pi * 0.5)
    ((noise_a * mix_a + noise_b * mix_b) * 0.4, x1)

/-- One loop iteration of noises_perform64. -/
def noises_sample (x : NoisesState) (type_in amp_in : ℝ) : ℝ × NoisesState :=
  let type_target := fclamp 0 6 (if x.type_has_signal then type_in else x.type_float)
  let amp_target := fclamp 0 1 (if x.amplitude_has_signal then amp_in else x.amplitude_float)
  let type_param :=
    if x.type_has_signal then smooth_param x.type_smooth type_target (x.smooth_factor * 0.1)
    else smooth_param x.type_smooth type_target x.smooth_factor
  let amplitude :=
    if x.amplitude_has_signal then
      smooth_param x.amplitude_smooth amp_target (x.smooth_factor * 0.1)
    else smooth_param x.amplitude_smooth amp_target x.smooth_factor
  let x1 := { x with type_smooth := type_param, amplitude_smooth := amplitude }
  let m := noises_morph_types x1 type_param
  let output0 := m.1 * amplitude
  let output := if |output0| < 1 / 10 ^ 15 then 0 else output0
  (output, m.2)

/-- noises_init_generators: reset all generator state (the DC blocker and the
parameter smoothers are deliberately not touched, as in the source). -/
def noises_init_generators (x : NoisesState) : NoisesState :=
  let fc := 1000 / x.sr
  let q : ℝ := 0.707
  let omega := 2 * Real.pi * fc
  let cos_omega := Real.cos omega
  let sin_omega := Real.sin omega
  let alpha := sin_omega / (2 * q)
  { x with
    pink_index := 0
    pink_index_mask := 31
    pink_scalar := 1 / 64
    pink_running_sum := 0
    pink_rows := fun _ => 0
    brown_state := 0
    brown_leak := 0.9999
    prev_white := 0
    prev_blue := 0
    grey_b0 := (1 + alpha) / (1 + alpha)
    grey_b1 := -2 * cos_omega / (1 + alpha)
    grey_b2 := (1 - alpha) / (1 + alpha)
    grey_a1 := -2 * cos_omega / (1 + alpha)
    grey_a2 := (1 - alpha) / (1 + alpha)
    grey_x1 := 0
    grey_x2 := 0
    grey_y1 := 0
    grey_y2 := 0 }

/-- noises_new with default arguments and no attribute overrides.  r models
the unpredictable auto-seed value (object address xor current time); two
separately constructed instances generally have different r. -/
def noises_new (r : ℕ) : NoisesState :=
  let rng0 := r % 2 ^ 32
  noises_init_generators
  { sr := 44100
    sr_inv := 1 / 44100
    morphing_enabled := true
    dc_blocking_enabled := true
    seed_auto := true
    filter_quality := 1
    type_float := 0
    amplitude_float := 0.5
    type_has_signal := false
    amplitude_has_signal := false
    type_smooth := 0
    amplitude_smooth := 0.5
    smooth_factor := 0.001
    rng_state := if rng0 = 0 then 1 else rng0
    pink_rows := fun _ => 0
    pink_running_sum := 0
    pink_index := 0
    pink_index_mask := 31
    pink_scalar := 1 / 64
    brown_state := 0
    brown_leak := 0.9999
    prev_white := 0
    prev_blue := 0
    grey_x1 := 0
    grey_x2 := 0
    grey_y1 := 0
    grey_y2 := 0
    grey_a1 := 0
    grey_a2 := 0
    grey_b0 := 0
    grey_b1 := 0
    grey_b2 := 0
    dc_block_x1 := 0
    dc_block_y1 := 0 }

/-- The seed message handler noises_seed. -/
def noises_seed (seed : ℤ) (x : NoisesState) : NoisesState :=
  let rng0 := (seed % 2 ^ 32).toNat
  noises_init_generators
  { x with
    rng_state := if rng0 = 0 then 1 else rng0
    seed_auto := false }

/-- State after n samples of noises_perform64. -/
def noises_states (x : NoisesState) (ins : ℕ → ℝ × ℝ) : ℕ → NoisesState
  | 0 => x
  | n + 1 =>
    let i := ins n
    (noises_sample (noises_states x ins n) i.1 i.2).2

/-- Output sample n of noises_perform64. -/
def noises_out (x : NoisesState) (ins : ℕ → ℝ × ℝ) (n : ℕ) : ℝ :=
  let i := ins n
  (noises_sample (noises_states x ins n) i.1 i.2).1

/-- The state a fresh cycle-2d~ instance has after cycle2d_new with arguments
(freq, x, y) and after dsp64 set the sample rate (no signals connected). -/
def cycle2d_new (freq xp yp sr : ℝ) : Cycle2dState :=
  { phase := 0
    sr := sr
    sr_inv := 1 / sr
    freq_float := freq
    x_float := clamp xp 0 1
    y_float := clamp yp 0 1
    phase_offset_float := 0
    freq_has_signal := false
    x_has_signal := false
    y_has_signal := false
    phase_has_signal := false
    corner_tables := init_corner_tables 0
    custom_tables := fun _ => { wavetable := fun _ => 0, x_pos := 0, y_pos := 0, active := false }
    num_custom_tables := 0
    interpolation := 0
    corner_mode := 0
    table_size := 2 }

/-- Invariant: all filter memory cells and the feedback sample are bounded by B. -/
def ssm_inv (B : ℝ) (st : Ssm2044State) : Prop :=
  |st.state1| ≤ B ∧ |st.state2| ≤ B ∧ |st.state3| ≤ B ∧ |st.state4| ≤ B ∧
  |st.feedback_sample| ≤ B

/-- The feedback input of the C3 configuration (warmth 0 disables the
feedback saturation entirely, so the raw feedback sample enters the loop). -/
def ssmC3fbin (st : Ssm2044State) : ℝ :=
  Real.tanh (1 * 1 * 1.5) / 1.5 + 280 / 41 * st.feedback_sample

def ssmC3e1 (st : Ssm2044State) : ℝ := st.state1 + 1 / 2 * (ssmC3fbin st - st.state1)

def ssmC3e2 (st : Ssm2044State) : ℝ := st.state2 + 1 / 2 * (ssmC3e1 st - st.state2)

def ssmC3e3 (st : Ssm2044State) : ℝ := st.state3 + 1 / 2 * (ssmC3e2 st - st.state3)

def ssmC3e4 (st : Ssm2044State) : ℝ := st.state4 + 1 / 2 * (ssmC3e3 st - st.state4)

/-! ## Theorems -/

theorem clamp_le (x lo hi : ℝ) (h : lo ≤ hi) : clamp x lo hi ≤ hi := by
  unfold clamp
  split <;> [exact h; skip]
  split <;> [exact le_refl hi; linarith [not_lt.mp (by assumption : ¬ x > hi)]]

theorem le_clamp (x lo hi : ℝ) (h : lo ≤ hi) : lo ≤ clamp x lo hi := by
  unfold clamp
  split
  · exact le_refl lo
  · split
    · exact h
    · linarith [not_lt.mp (by assumption : ¬ x < lo)]

theorem clamp_of_mem (x lo hi : ℝ) (h1 : ¬ x < lo) (h2 : ¬ x > hi) :
    clamp x lo hi = x := by
  unfold clamp
  rw [if_neg h1, if_neg h2]

theorem fclamp_le (lo hi x : ℝ) (h : lo ≤ hi) : fclamp lo hi x ≤ hi := by
  unfold fclamp
  exact max_le h (min_le_left hi x)

theorem le_fclamp (lo hi x : ℝ) : lo ≤ fclamp lo hi x := le_max_left lo _

theorem denormal_fix_eq_of_ge (v c : ℝ) (hc : 1 / 10 ^ 15 ≤ c) (hv : c ≤ v) :
    denormal_fix v = v := by
  have h0 : (0:ℝ) ≤ v := by
    have : (0:ℝ) ≤ 1 / 10 ^ 15 := by norm_num
    linarith
  unfold denormal_fix
  rw [if_neg]
  rw [not_lt, abs_of_nonneg h0]
  linarith

theorem abs_denormal_fix_le (v : ℝ) : |denormal_fix v| ≤ |v| := by
  unfold denormal_fix
  split
  · simp
  · exact le_refl _

theorem denormal_fix_mem_Ico (v : ℝ) (h0 : 0 ≤ v) (h1 : v < 1) :
    0 ≤ denormal_fix v ∧ denormal_fix v < 1 := by
  unfold denormal_fix
  split
  · exact ⟨le_refl 0, one_pos⟩
  · exact ⟨h0, h1⟩

theorem wrap_down_mem_Ico (p : ℝ) (hp : 0 ≤ p) : 0 ≤ wrap_down p ∧ wrap_down p < 1 := by
  induction p using wrap_down.induct with
  | case1 p h ih =>
    rw [wrap_down, dif_pos h]
    exact ih (by linarith)
  | case2 p h =>
    rw [wrap_down, dif_neg h]
    exact ⟨hp, by linarith [not_le.mp h]⟩

theorem wrap_up_of_nonneg (p : ℝ) (hp : 0 ≤ p) : wrap_up p = p := by
  rw [wrap_up, dif_neg (not_lt.mpr hp)]

theorem ctrunc_of_nonneg (x : ℝ) (h : 0 ≤ x) : ctrunc x = ⌊x⌋ := by
  rw [ctrunc, if_neg (not_lt.mpr h)]

/-! ## Helper lemmas about Real.tanh -/

theorem tanh_eq_one_sub (x : ℝ) :
    Real.tanh x = 1 - 2 / (Real.exp (2 * x) + 1) := by
  rw [Real.tanh_eq_sinh_div_cosh, Real.sinh_eq, Real.cosh_eq]
  have h1 : (0:ℝ) < Real.exp x := Real.exp_pos x
  have h2 : (0:ℝ) < Real.exp (-x) := Real.exp_pos _
  have h3 : Real.exp (2 * x) = Real.exp x * Real.exp x := by
    rw [← Real.exp_add]; ring_nf
  have h4 : Real.exp x * Real.exp (-x) = 1 := by
    rw [← Real.exp_add]; simp
  have h5 : (0:ℝ) < Real.exp (2 * x) + 1 := by positivity
  field_simp
  nlinarith [h3, h4]

theorem tanh_le_tanh_of_le (x y : ℝ) (h : x ≤ y) : Real.tanh x ≤ Real.tanh y := by
  rw [tanh_eq_one_sub, tanh_eq_one_sub]
  have h1 : Real.exp (2 * x) ≤ Real.exp (2 * y) := Real.exp_le_exp.mpr (by linarith)
  have h2 : (0:ℝ) < Real.exp (2 * x) + 1 := by positivity
  have h3 : 2 / (Real.exp (2 * y) + 1) ≤ 2 / (Real.exp (2 * x) + 1) := by
    gcongr
  linarith

theorem tanh_lt_one_of_real (x : ℝ) : Real.tanh x < 1 := by
  rw [tanh_eq_one_sub]
  have h : (0:ℝ) < 2 / (Real.exp (2 * x) + 1) := by positivity
  linarith

theorem tanh_pos_of_pos (y : ℝ) (h : 0 < y) : 0 < Real.tanh y := by
  rw [tanh_eq_one_sub]
  have h1 : (1:ℝ) < Real.exp (2 * y) := by
    have h2 := Real.add_one_le_exp (2 * y)
    linarith
  have h2 : (0:ℝ) < Real.exp (2 * y) + 1 := by positivity
  have h3 : 2 / (Real.exp (2 * y) + 1) < 1 := by
    rw [div_lt_one h2]
    linarith
  linarith

theorem abs_tanh_le_tanh (x y : ℝ) (h : |x| ≤ y) : |Real.tanh x| ≤ Real.tanh y := by
  rw [abs_le] at h
  rw [abs_le]
  constructor
  · have h1 : Real.tanh (-y) ≤ Real.tanh x := tanh_le_tanh_of_le _ _ (by linarith)
    rw [Real.tanh_neg] at h1
    exact h1
  · exact tanh_le_tanh_of_le _ _ h.2

/-! ## Claim C2: boundedness of fold_wave_improved -/

theorem reflect_iter_abs_le (fuel : ℕ) (thr : ℝ) (hthr : 0 < thr) :
    ∀ out : ℝ, |out| ≤ thr * (1 + 2 * fuel) → |reflect_iter fuel thr out| ≤ thr := by
  induction fuel with
  | zero =>
    intro out h
    rw [reflect_iter]
    simpa using h
  | succ n ih =>
    intro out h
    rw [abs_le] at h
    push_cast at h
    rw [reflect_iter]
    split
    · apply ih
      rw [abs_le]
      constructor
      · nlinarith [h.2]
      · nlinarith [(by assumption : out > thr)]
    · split
      · apply ih
        rw [abs_le]
        constructor
        · nlinarith [(by assumption : out < -thr)]
        · nlinarith [h.1]
      · rw [abs_le]
        constructor
        · linarith [not_lt.mp (by assumption : ¬ out < -thr)]
        · linarith [not_lt.mp (by assumption : ¬ out > thr)]

theorem safe_fold_amount_mem (aa : Bool) (fold freq sr : ℝ)
    (h1 : fold ≤ 1) (hsr : 0 < sr) :
    0 ≤ safe_fold_amount aa fold freq sr ∧ safe_fold_amount aa fold freq sr ≤ 1 := by
  unfold safe_fold_amount
  split
  · rename_i hcond
    constructor
    · apply le_min
      · exact le_max_left 0 fold
      · have hfreq : (0:ℝ) < freq := by linarith [hcond.2]
        have : (0:ℝ) < sr * 0.5 / freq / 10 := by positivity
        exact le_min (by norm_num) (by linarith)
    · exact le_trans (min_le_left _ _) (max_le (by norm_num) h1)
  · exact ⟨le_max_left 0 fold, max_le (by norm_num) h1⟩

theorem fold_reflect_branch (s input : ℝ) (hin : |input| ≤ 1)
    (hs1 : s ≤ 1) :
    |reflect_iter 1000 (if 1 - s * 0.99 < 0.01 then 0.01 else 1 - s * 0.99) input| ≤
      1 - s * 0.99 := by
  have ht : ¬ (1 - s * 0.99 < 0.01) := by nlinarith
  rw [if_neg ht]
  apply reflect_iter_abs_le 1000 (1 - s * 0.99) (by nlinarith)
  push_cast
  nlinarith

theorem tanh_ratio_bounded (input d : ℝ) (hin : |input| ≤ 1) (hd : 0 < d) :
    |Real.tanh (input * d) / Real.tanh d| ≤ 1 := by
  have h1 : |input * d| ≤ d := by
    rw [abs_mul, abs_of_pos hd]
    nlinarith [abs_nonneg input]
  have h2 := abs_tanh_le_tanh (input * d) d h1
  have h3 := tanh_pos_of_pos d hd
  rw [abs_div, abs_of_pos h3, div_le_one h3]
  exact h2

theorem hybrid_reflected_bounded (input thr : ℝ) (hin : |input| ≤ 1)
    (hthr0 : 0 ≤ thr) (hthr1 : thr ≤ 1) :
    |if input > thr then thr + (input - thr) * 0.5
      else if input < -thr then -thr + (input + thr) * 0.5
      else input| ≤ 1 := by
  rw [abs_le] at hin
  split_ifs with hgt hlt
  · rw [abs_le]
    constructor <;> nlinarith
  · rw [abs_le]
    constructor <;> nlinarith
  · rw [abs_le]
    exact ⟨hin.1, hin.2⟩

theorem hybrid_blend_bounded (r s d : ℝ) (hr : |r| ≤ 1) (hs0 : 0 ≤ s) (hs1 : s ≤ 1)
    (hd : 0 < d) :
    |r * (1 - s * 0.5) + Real.tanh (r * d) / Real.tanh d * (s * 0.5)| ≤ 1 := by
  have h2 := tanh_ratio_bounded r d hr hd
  have h3 := abs_add (r * (1 - s * 0.5)) (Real.tanh (r * d) / Real.tanh d * (s * 0.5))
  rw [abs_mul, abs_mul] at h3
  have h4 : |1 - s * 0.5| = 1 - s * 0.5 := abs_of_nonneg (by nlinarith)
  have h5 : |s * 0.5| = s * 0.5 := abs_of_nonneg (by nlinarith)
  rw [h4, h5] at h3
  nlinarith [abs_nonneg r, abs_nonneg (Real.tanh (r * d) / Real.tanh d)]

/-- C2: for every input sample in [-1,1], fold amount in [0,1], frequency,
positive sample rate, and each folding algorithm, fold_wave_improved stays in
[-1,1]; for the reflection algorithm the result is moreover inside the
computed threshold range. -/
theorem C2_fold_wave_bounded (aa : Bool) (alg : ℤ) (input fold freq sr : ℝ)
    (hin : |input| ≤ 1) (_h0 : 0 ≤ fold) (h1 : fold ≤ 1) (hsr : 0 < sr) :
    |fold_wave_improved aa alg input fold freq sr| ≤ 1 ∧
    (alg = 0 → |fold_wave_improved aa alg input fold freq sr| ≤
       1 - safe_fold_amount aa fold freq sr * 0.99) := by
  obtain ⟨hs0, hs1⟩ := safe_fold_amount_mem aa fold freq sr h1 hsr
  set s := safe_fold_amount aa fold freq sr with hs
  constructor
  · simp only [fold_wave_improved]
    rw [← hs]
    by_cases halg0 : alg = 0
    · rw [if_pos halg0]
      have h := fold_reflect_branch s input hin hs1
      linarith
    · rw [if_neg halg0]
      by_cases halg1 : alg = 1
      · rw [if_pos halg1]
        by_cases hsafe : s ≤ 0
        · rw [if_pos hsafe]
          exact hin
        · rw [if_neg hsafe]
          exact tanh_ratio_bounded input (1 + s * 8) hin (by nlinarith)
      · rw [if_neg halg1]
        exact hybrid_blend_bounded _ s (1 + s * 4)
          (hybrid_reflected_bounded input (1 - s * 0.5) hin (by nlinarith) (by nlinarith))
          hs0 hs1 (by nlinarith)
  · intro halg
    simp only [fold_wave_improved]
    rw [← hs, if_pos halg]
    exact fold_reflect_branch s input hin hs1

/-! ## Claim C1: the phase accumulator invariant -/

theorem cycle2d_sample_phase (st : Cycle2dState) (a b c d : ℝ)
    (hsr : 0 ≤ st.sr_inv) (h0 : 0 ≤ st.phase) :
    0 ≤ (cycle2d_sample st a b c d).2.phase ∧ (cycle2d_sample st a b c d).2.phase < 1 := by
  have hf : 0 ≤ clamp (if st.freq_has_signal then a else st.freq_float) 0 20000 :=
    le_clamp _ 0 20000 (by norm_num)
  have hadd : 0 ≤ st.phase +
      clamp (if st.freq_has_signal then a else st.freq_float) 0 20000 * st.sr_inv :=
    add_nonneg h0 (mul_nonneg hf hsr)
  have hw := wrap_down_mem_Ico _ hadd
  simp only [cycle2d_sample]
  rw [wrap_up_of_nonneg _ hw.1]
  exact hw

theorem cycle2d_sample_sr_inv (st : Cycle2dState) (a b c d : ℝ) :
    (cycle2d_sample st a b c d).2.sr_inv = st.sr_inv := by
  simp only [cycle2d_sample]

theorem cycle2d_perform64_phase (ins : List (ℝ × ℝ × ℝ × ℝ)) :
    ∀ st : Cycle2dState, 0 ≤ st.sr_inv → 0 ≤ st.phase → st.phase < 1 →
      0 ≤ (cycle2d_perform64 st ins).2.phase ∧ (cycle2d_perform64 st ins).2.phase < 1 := by
  induction ins with
  | nil =>
    intro st _ h2 h3
    exact ⟨h2, h3⟩
  | cons i rest ih =>
    intro st h1 h2 _
    simp only [cycle2d_perform64]
    have hstep := cycle2d_sample_phase st i.1 i.2.1 i.2.2.1 i.2.2.2 h1 h2
    exact ih _ (by rw [cycle2d_sample_sr_inv]; exact h1) hstep.1 hstep.2

/-- The phase update of cyclefold_perform64 in isolation:
increment, single conditional wrap down, single conditional wrap up,
denormal flush. -/
theorem fold_phase_step (p inc : ℝ) (h0 : 0 ≤ p) (h1 : p < 1)
    (hi0 : 0 ≤ inc) (hi1 : inc < 1) :
    0 ≤ (if |(if (if p + inc ≥ 1 then p + inc - 1 else p + inc) < 0
              then (if p + inc ≥ 1 then p + inc - 1 else p + inc) + 1
              else (if p + inc ≥ 1 then p + inc - 1 else p + inc))| < 1 / 10 ^ 15
         then 0
         else (if (if p + inc ≥ 1 then p + inc - 1 else p + inc) < 0
              then (if p + inc ≥ 1 then p + inc - 1 else p + inc) + 1
              else (if p + inc ≥ 1 then p + inc - 1 else p + inc))) ∧
    (if |(if (if p + inc ≥ 1 then p + inc - 1 else p + inc) < 0
              then (if p + inc ≥ 1 then p + inc - 1 else p + inc) + 1
              else (if p + inc ≥ 1 then p + inc - 1 else p + inc))| < 1 / 10 ^ 15
         then 0
         else (if (if p + inc ≥ 1 then p + inc - 1 else p + inc) < 0
              then (if p + inc ≥ 1 then p + inc - 1 else p + inc) + 1
              else (if p + inc ≥ 1 then p + inc - 1 else p + inc))) < 1 := by
  have step2 : ∀ q : ℝ, 0 ≤ q → q < 1 →
      0 ≤ (if |(if q < 0 then q + 1 else q)| < 1 / 10 ^ 15 then 0
            else (if q < 0 then q + 1 else q)) ∧
      (if |(if q < 0 then q + 1 else q)| < 1 / 10 ^ 15 then 0
            else (if q < 0 then q + 1 else q)) < 1 := by
    intro q hq0 hq1
    rw [if_neg (not_lt.mpr hq0)]
    split_ifs
    · exact ⟨le_refl 0, one_pos⟩
    · exact ⟨hq0, hq1⟩
  by_cases hge : p + inc ≥ 1
  · simp only [if_pos hge]
    exact step2 (p + inc - 1) (by linarith) (by linarith)
  · simp only [if_neg hge]
    exact step2 (p + inc) (by linarith) (by linarith [not_le.mp hge])

theorem cyclefold_sample_phase (st : CycleFoldState) (a b c : ℝ)
    (hsr : 0 ≤ st.sr_inv) (hlt : 20000 * st.sr_inv < 1)
    (h0 : 0 ≤ st.phase) (h1 : st.phase < 1) :
    0 ≤ (cyclefold_sample st a b c).2.phase ∧ (cyclefold_sample st a b c).2.phase < 1 := by
  have hf0 : (0.001 : ℝ) ≤ fclamp 0.001 20000 (if st.frequency_has_signal then a else st.frequency_float) :=
    le_fclamp 0.001 20000 _
  have hf1 : fclamp 0.001 20000 (if st.frequency_has_signal then a else st.frequency_float) ≤ 20000 :=
    fclamp_le 0.001 20000 _ (by norm_num)
  have hi0 : 0 ≤ fclamp 0.001 20000 (if st.frequency_has_signal then a else st.frequency_float) * st.sr_inv :=
    mul_nonneg (by linarith) hsr
  have hi1 : fclamp 0.001 20000 (if st.frequency_has_signal then a else st.frequency_float) * st.sr_inv < 1 := by
    have := mul_le_mul_of_nonneg_right hf1 hsr
    linarith
  simp only [cyclefold_sample]
  exact fold_phase_step st.phase _ h0 h1 hi0 hi1

theorem cyclefold_sample_sr_inv (st : CycleFoldState) (a b c : ℝ) :
    (cyclefold_sample st a b c).2.sr_inv = st.sr_inv := by
  simp only [cyclefold_sample]

theorem cyclefold_perform64_phase (ins : List (ℝ × ℝ × ℝ)) :
    ∀ st : CycleFoldState, 0 ≤ st.sr_inv → 20000 * st.sr_inv < 1 →
      0 ≤ st.phase → st.phase < 1 →
      0 ≤ (cyclefold_perform64 st ins).2.phase ∧ (cyclefold_perform64 st ins).2.phase < 1 := by
  induction ins with
  | nil =>
    intro st _ _ h2 h3
    exact ⟨h2, h3⟩
  | cons i rest ih =>
    intro st h1 hlt h2 h3
    simp only [cyclefold_perform64]
    have hstep := cyclefold_sample_phase st i.1 i.2.1 i.2.2 h1 hlt h2 h3
    exact ih _ (by rw [cyclefold_sample_sr_inv]; exact h1)
      (by rw [cyclefold_sample_sr_inv]; exact hlt) hstep.1 hstep.2

/-- C1 counterexample: with sample rate 10000 Hz and maximum frequency
20000 Hz, cycle.fold~'s single conditional wrap leaves the phase accumulator
at exactly 1 after one sample, outside [0,1).  (cycle-2d~'s while-loop wrap
never does this.) -/
theorem C1_phase_wrap_counterexample :
    (cyclefold_sample (cyclefold_new 20000 0 0 10000) 0 0 0).2.phase = 1 ∧
    ¬ ((cyclefold_sample (cyclefold_new 20000 0 0 10000) 0 0 0).2.phase < 1) := by
  have h : (cyclefold_sample (cyclefold_new 20000 0 0 10000) 0 0 0).2.phase = 1 := by
    norm_num [cyclefold_sample, cyclefold_new, fclamp]
  exact ⟨h, by rw [h]; exact lt_irrefl 1⟩

/-- C1 (amended): after processing any block, the phase accumulator of
cycle-2d~ stays in [0,1) for every positive sample rate, and the phase
accumulator of cycle.fold~ stays in [0,1) provided the per-sample increment
bound 20000 / sr is below 1 (i.e. the sample rate exceeds the 20 kHz
frequency cap). -/
theorem C1_phase_wrap_amended :
    (∀ (st : Cycle2dState) (ins : List (ℝ × ℝ × ℝ × ℝ)),
        0 ≤ st.sr_inv → 0 ≤ st.phase → st.phase < 1 →
        0 ≤ (cycle2d_perform64 st ins).2.phase ∧ (cycle2d_perform64 st ins).2.phase < 1) ∧
    (∀ (st : CycleFoldState) (ins : List (ℝ × ℝ × ℝ)),
        0 ≤ st.sr_inv → 20000 * st.sr_inv < 1 → 0 ≤ st.phase → st.phase < 1 →
        0 ≤ (cyclefold_perform64 st ins).2.phase ∧ (cyclefold_perform64 st ins).2.phase < 1) :=
  ⟨fun st ins h1 h2 h3 => cycle2d_perform64_phase ins st h1 h2 h3,
   fun st ins h1 h2 h3 h4 => cyclefold_perform64_phase ins st h1 h2 h3 h4⟩

theorem C1_phase_wrap_amended_witness :
    0 ≤ (cycle2d_perform64 (cycle2d_new 440 0.5 0.5 44100) [(440, 0.5, 0.5, 0)]).2.phase ∧
    (cycle2d_perform64 (cycle2d_new 440 0.5 0.5 44100) [(440, 0.5, 0.5, 0)]).2.phase < 1 ∧
    0 ≤ (cyclefold_perform64 (cyclefold_new 440 0 0 44100) [(440, 0, 0)]).2.phase ∧
    (cyclefold_perform64 (cyclefold_new 440 0 0 44100) [(440, 0, 0)]).2.phase < 1 := by
  have h1 := C1_phase_wrap_amended.1 (cycle2d_new 440 0.5 0.5 44100) [(440, 0.5, 0.5, 0)]
      (by norm_num [cycle2d_new]) (by norm_num [cycle2d_new]) (by norm_num [cycle2d_new])
  have h2 := C1_phase_wrap_amended.2 (cyclefold_new 440 0 0 44100) [(440, 0, 0)]
      (by norm_num [cyclefold_new]) (by norm_num [cyclefold_new])
      (by norm_num [cyclefold_new]) (by norm_num [cyclefold_new])
  exact ⟨h1.1, h1.2, h2.1, h2.2⟩

theorem C2_fold_wave_bounded_witness :
    |(0.5:ℝ)| ≤ 1 ∧ (0:ℝ) ≤ 0.5 ∧ (0.5:ℝ) ≤ 1 ∧ (0:ℝ) < 44100 ∧
    (|fold_wave_improved false 0 0.5 0.5 440 44100| ≤ 1 ∧
      ((0:ℤ) = 0 → |fold_wave_improved false 0 0.5 0.5 440 44100| ≤
        1 - safe_fold_amount false 0.5 440 44100 * 0.99)) := by
  refine ⟨?_, by norm_num, by norm_num, by norm_num, ?_⟩
  · rw [abs_of_pos (by norm_num : (0:ℝ) < 0.5)]
    norm_num
  · exact C2_fold_wave_bounded false 0 0.5 0.5 440 44100
      (by rw [abs_of_pos (by norm_num : (0:ℝ) < 0.5)]; norm_num)
      (by norm_num) (by norm_num) (by norm_num)

/-! ## Claim C4: bilinear corner interpolation identity -/

theorem custom_weights_of_inactive (customs : ℕ → CustomTable) (num : ℕ)
    (x_pos y_pos phase : ℝ)
    (h : ∀ i, i < num → (customs i).active = false) :
    custom_weights customs num x_pos y_pos phase = (0, 0) := by
  unfold custom_weights
  have hgen : ∀ (l : List ℕ) (acc : ℝ × ℝ), (∀ i ∈ l, (customs i).active = false) →
      List.foldl
        (fun acc i =>
          let t := customs i
          if t.active then
            let dx := x_pos - t.x_pos
            let dy := y_pos - t.y_pos
            let distance := Real.sqrt (dx * dx + dy * dy)
            let weight := 1 / (1 + distance * 2)
            let custom_sample := wavetable_lookup t.wavetable phase
            (acc.1 + custom_sample * weight, acc.2 + weight)
          else acc)
        acc l = acc := by
    intro l
    induction l with
    | nil => intro acc _; rfl
    | cons a t ih =>
      intro acc hmem
      rw [List.foldl_cons]
      have ha : (customs a).active = false := hmem a (List.mem_cons_self a t)
      simp only [ha]
      simp only [Bool.false_eq_true, if_false]
      exact ih acc (fun i hi => hmem i (List.mem_cons_of_mem a hi))
  exact hgen (List.range num) (0, 0) (fun i hi => h i (List.mem_range.mp hi))

/-- C4: with zero active custom tables and the standard corner set, the
bilinear interpolation at the four corner positions equals the respective
corner-table lookups, exactly, for every phase. -/
theorem C4_bilinear_corner_identity (st : Cycle2dState)
    (hmode : st.corner_tables = init_corner_tables 0)
    (hcustom : ∀ i, i < st.num_custom_tables → (st.custom_tables i).active = false)
    (phase : ℝ) :
    bilinear_interpolate st 0 0 phase = wavetable_lookup (generate_sine_table 4096) phase ∧
    bilinear_interpolate st 1 0 phase = wavetable_lookup (generate_saw_table 4096) phase ∧
    bilinear_interpolate st 0 1 phase = wavetable_lookup (generate_triangle_table 4096) phase ∧
    bilinear_interpolate st 1 1 phase = wavetable_lookup (generate_square_table 4096) phase := by
  have ht : ∀ c : Fin 4, st.corner_tables c = init_corner_tables 0 c := fun c => by rw [hmode]
  have h0 : st.corner_tables 0 = generate_sine_table 4096 := by
    rw [ht 0]; norm_num [init_corner_tables]
  have h1 : st.corner_tables 1 = generate_triangle_table 4096 := by
    rw [ht 1]; norm_num [init_corner_tables]
  have h2 : st.corner_tables 2 = generate_saw_table 4096 := by
    rw [ht 2]; norm_num [init_corner_tables]
  have h3 : st.corner_tables 3 = generate_square_table 4096 := by
    rw [ht 3]; norm_num [init_corner_tables]
  refine ⟨?_, ?_, ?_, ?_⟩ <;>
  · unfold bilinear_interpolate
    rw [custom_weights_of_inactive st.custom_tables st.num_custom_tables _ _ phase hcustom]
    norm_num [h0, h1, h2, h3]

theorem C4_bilinear_corner_identity_witness :
    ((cycle2d_new 440 0.5 0.5 44100).corner_tables = init_corner_tables 0) ∧
    (bilinear_interpolate (cycle2d_new 440 0.5 0.5 44100) 0 0 0.25 =
      wavetable_lookup (generate_sine_table 4096) 0.25) := by
  have hc := C4_bilinear_corner_identity (cycle2d_new 440 0.5 0.5 44100) rfl
    (by intro i hi; simp [cycle2d_new] at hi) 0.25
  exact ⟨rfl, hc.1⟩

/-! ## Claim C8: the buffer-load message is a no-op on every failure path -/

/-- C8: every failure path of cycle2d_buffer (too few arguments, all slots
occupied, buffer missing, lock failure, empty buffer) returns the state
unchanged; the success path appends exactly one new active custom table and
changes nothing else. -/
theorem C8_buffer_load_no_op (env : String → Option MaxBuffer) (st : Cycle2dState)
    (argc : ℕ) (name : String) (xp yp : ℝ) (offset : ℤ) :
    (argc < 3 → cycle2d_buffer env st argc name xp yp offset = st) ∧
    (16 ≤ st.num_custom_tables → cycle2d_buffer env st argc name xp yp offset = st) ∧
    (env name = none → cycle2d_buffer env st argc name xp yp offset = st) ∧
    (∀ buffer, env name = some buffer → buffer.lock_ok = false →
        cycle2d_buffer env st argc name xp yp offset = st) ∧
    (∀ buffer, env name = some buffer → buffer.lock_ok = true → buffer.frames = 0 →
        cycle2d_buffer env st argc name xp yp offset = st) ∧
    (∀ buffer, env name = some buffer → ¬ argc < 3 → ¬ 16 ≤ st.num_custom_tables →
        buffer.lock_ok = true → buffer.frames ≠ 0 →
        cycle2d_buffer env st argc name xp yp offset =
          { st with
            custom_tables := Function.update st.custom_tables st.num_custom_tables
              { wavetable := fun i =>
                  let read_index := Int.tmod (offset + i) buffer.frames
                  if read_index < (buffer.frames : ℤ) then buffer.samples read_index
                  else 0
                x_pos := clamp xp 0 1
                y_pos := clamp yp 0 1
                active := true }
            num_custom_tables := st.num_custom_tables + 1 }) := by
  refine ⟨?_, ?_, ?_, ?_, ?_, ?_⟩
  · intro h
    unfold cycle2d_buffer
    rw [if_pos h]
  · intro h
    unfold cycle2d_buffer
    split_ifs with h1
    · rfl
    · rfl
  · intro h
    unfold cycle2d_buffer
    split_ifs with h1 h2
    · rfl
    · rfl
    · rw [h]
  · intro buffer hb hlock
    unfold cycle2d_buffer
    split_ifs with h1 h2
    · rfl
    · rfl
    · rw [hb]
      simp only [hlock]
      norm_num
  · intro buffer hb hlock hframes
    unfold cycle2d_buffer
    split_ifs with h1 h2
    · rfl
    · rfl
    · rw [hb]
      simp only [hlock, hframes]
      norm_num
  · intro buffer hb hargc hfull hlock hframes
    unfold cycle2d_buffer
    rw [if_neg hargc, if_neg hfull, hb]
    simp only [hlock]
    norm_num [hframes]

/-- Witness for C8: a load message with only two arguments, in an environment
with no buffers, leaves a freshly constructed instance untouched. -/
theorem C8_buffer_load_no_op_witness :
    cycle2d_buffer (fun _ => none) (cycle2d_new 440 0.5 0.5 44100) 2 "b" 0 0 0 =
      cycle2d_new 440 0.5 0.5 44100 :=
  (C8_buffer_load_no_op (fun _ => none) (cycle2d_new 440 0.5 0.5 44100)
    2 "b" 0 0 0).1 (by norm_num)

/-! ## Claim C9: table-lookup interpolation continuity -/

theorem wavetable_lookup_eq (T : ℕ → ℝ) (p : ℝ) (h0 : 0 ≤ p) (h1 : p < 1) :
    wavetable_lookup T p =
      T (⌊p * 4095⌋).toNat * (1 - (p * 4095 - (⌊p * 4095⌋ : ℤ))) +
      T ((⌊p * 4095⌋).toNat + 1) * (p * 4095 - (⌊p * 4095⌋ : ℤ)) := by
  simp only [wavetable_lookup]
  have he : (4096 - 1 : ℝ) = 4095 := by norm_num
  rw [he]
  have hs0 : 0 ≤ p * (4095 : ℝ) := by nlinarith
  rw [ctrunc_of_nonneg _ hs0]
  have hlt : p * (4095 : ℝ) < 4095 := by nlinarith
  have hfl : ⌊p * (4095 : ℝ)⌋ < (4096 - 1 : ℤ) := by
    have : ⌊p * (4095 : ℝ)⌋ < (4095 : ℤ) := Int.floor_lt.mpr (by push_cast; linarith)
    omega
  rw [if_neg (not_le.mpr hfl)]

theorem lookup_close_within (T : ℕ → ℝ) (M p q : ℝ)
    (hM : ∀ i : ℕ, i < 4095 → |T (i + 1) - T i| ≤ M)
    (h0 : 0 ≤ p) (hpq : p ≤ q) (h1 : q < 1) (hd : q - p ≤ 1 / 4095) :
    |wavetable_lookup T q - wavetable_lookup T p| ≤ M := by
  have hM0 : 0 ≤ M := le_trans (abs_nonneg _) (hM 0 (by norm_num))
  rw [wavetable_lookup_eq T p h0 (lt_of_le_of_lt hpq h1),
      wavetable_lookup_eq T q (le_trans h0 hpq) h1]
  set s := p * 4095 with hs
  set t := q * 4095 with ht
  have hts : t - s ≤ 1 := by rw [hs, ht]; nlinarith
  have hst : s ≤ t := by rw [hs, ht]; nlinarith
  have hs0 : (0:ℝ) ≤ s := by rw [hs]; nlinarith
  have hslt : s < 4095 := by
    rw [hs]; nlinarith [lt_of_le_of_lt hpq h1]
  have htlt : t < 4095 := by rw [ht]; nlinarith
  set i := ⌊s⌋ with hi
  set j := ⌊t⌋ with hj
  have hi0 : (0:ℤ) ≤ i := Int.floor_nonneg.mpr hs0
  have hj0 : (0:ℤ) ≤ j := Int.floor_nonneg.mpr (le_trans hs0 hst)
  have hij : i ≤ j := Int.floor_le_floor hst
  have hji : j ≤ i + 1 := by
    have h2 : t ≤ s + 1 := by linarith
    calc j ≤ ⌊s + 1⌋ := Int.floor_le_floor h2
    _ = i + 1 := by rw [Int.floor_add_one]
  have hile : (i:ℝ) ≤ s := Int.floor_le s
  have hilt : s < i + 1 := Int.lt_floor_add_one s
  have hjle : (j:ℝ) ≤ t := Int.floor_le t
  have hjlt : t < j + 1 := Int.lt_floor_add_one t
  have hi4094 : i < 4095 := by
    have h3 : (i:ℝ) < 4095 := lt_of_le_of_lt hile hslt
    exact_mod_cast h3
  have hj4094 : j < 4095 := by
    have h3 : (j:ℝ) < 4095 := lt_of_le_of_lt hjle htlt
    exact_mod_cast h3
  have hiN : ((i.toNat : ℕ) : ℝ) = (i : ℝ) := by
    exact_mod_cast congrArg (Int.cast : ℤ → ℝ) (Int.toNat_of_nonneg hi0)
  have hjN : ((j.toNat : ℕ) : ℝ) = (j : ℝ) := by
    exact_mod_cast congrArg (Int.cast : ℤ → ℝ) (Int.toNat_of_nonneg hj0)
  rcases eq_or_lt_of_le hij with heq | hlt2
  · -- same segment
    rw [← heq]
    have key : T i.toNat * (1 - (t - (i:ℝ))) + T (i.toNat + 1) * (t - (i:ℝ)) -
        (T i.toNat * (1 - (s - (i:ℝ))) + T (i.toNat + 1) * (s - (i:ℝ))) =
        (T (i.toNat + 1) - T i.toNat) * (t - s) := by ring
    rw [key, abs_mul]
    have hb := hM i.toNat (by omega)
    have habs_ts : |t - s| = t - s := abs_of_nonneg (by linarith)
    rw [habs_ts]
    nlinarith [abs_nonneg (T (i.toNat + 1) - T i.toNat)]
  · -- adjacent segments: j = i + 1
    have hj1 : j = i + 1 := by omega
    have hJN : j.toNat = i.toNat + 1 := by omega
    have hjr : (j : ℝ) = (i : ℝ) + 1 := by exact_mod_cast congrArg (Int.cast : ℤ → ℝ) hj1
    rw [hJN, hjr]
    set a := i.toNat
    set u := s - (i:ℝ) with hu
    set v := t - ((i:ℝ) + 1) with hv
    have key : T (a + 1) * (1 - v) + T (a + 1 + 1) * v -
        (T a * (1 - u) + T (a + 1) * u) =
        (T (a + 1) - T a) * (1 - u) + (T (a + 1 + 1) - T (a + 1)) * v := by ring
    rw [key]
    have hu0 : 0 ≤ u := by rw [hu]; linarith
    have hu1 : u < 1 := by rw [hu]; linarith
    have hv0 : 0 ≤ v := by rw [hv]; linarith [hjle, hjr]
    have hsum : (1 - u) + v = t - s := by rw [hu, hv]; ring
    have hb1 := hM a (by omega)
    have hb2 := hM (a + 1) (by omega)
    calc |(T (a + 1) - T a) * (1 - u) + (T (a + 1 + 1) - T (a + 1)) * v| ≤
        |(T (a + 1) - T a) * (1 - u)| + |(T (a + 1 + 1) - T (a + 1)) * v| := abs_add _ _
    _ = |T (a + 1) - T a| * (1 - u) + |T (a + 1 + 1) - T (a + 1)| * v := by
        rw [abs_mul, abs_mul, abs_of_nonneg (by linarith : (0:ℝ) ≤ 1 - u),
            abs_of_nonneg hv0]
    _ ≤ M * (1 - u) + M * v := by
        have := mul_le_mul_of_nonneg_right hb1 (by linarith : (0:ℝ) ≤ 1 - u)
        have := mul_le_mul_of_nonneg_right hb2 hv0
        nlinarith
    _ = M * ((1 - u) + v) := by ring
    _ ≤ M := by
        rw [hsum]
        nlinarith

theorem lookup_close_wrap (T : ℕ → ℝ) (M p q : ℝ)
    (hM : ∀ i : ℕ, i < 4095 → |T (i + 1) - T i| ≤ M)
    (hMw : |T 0 - T 4095| ≤ M)
    (hq0 : 0 ≤ q) (hqp : q ≤ p) (hp1 : p < 1) (hd : (1 - p) + q ≤ 1 / 4095) :
    |wavetable_lookup T p - wavetable_lookup T q| ≤ 2 * M := by
  have hM0 : 0 ≤ M := le_trans (abs_nonneg _) (hM 0 (by norm_num))
  rw [wavetable_lookup_eq T p (le_trans hq0 hqp) hp1,
      wavetable_lookup_eq T q hq0 (lt_of_le_of_lt hqp hp1)]
  have hsp0 : (4094:ℝ) ≤ p * 4095 := by nlinarith
  have hsp1 : p * 4095 < 4095 := by nlinarith
  have hfp : ⌊p * 4095⌋ = 4094 := by
    rw [Int.floor_eq_iff]
    constructor
    · push_cast; linarith
    · push_cast; linarith
  have hsq0 : (0:ℝ) ≤ q * 4095 := by nlinarith
  have hsq1 : q * 4095 < 1 := by nlinarith
  have hfq : ⌊q * 4095⌋ = 0 := by
    rw [Int.floor_eq_iff]
    constructor
    · push_cast; linarith
    · push_cast; linarith
  rw [hfp, hfq]
  simp only [Int.toNat_ofNat, Int.toNat_zero, Int.cast_ofNat, Int.cast_zero]
  rw [show ((4094:ℤ).toNat) = 4094 from rfl]
  have key : T 4094 * (1 - (p * 4095 - (4094:ℝ))) + T (4094 + 1) * (p * 4095 - (4094:ℝ)) -
      (T 0 * (1 - (q * 4095 - 0)) + T (0 + 1) * (q * 4095 - 0)) =
      (T 4094 - T 4095) * (1 - (p * 4095 - 4094)) + (T 4095 - T 0) +
        (T 0 - T 1) * (q * 4095) := by
    norm_num
    ring
  rw [key]
  have hA0 : 0 ≤ 1 - (p * 4095 - 4094) := by linarith
  have hsum : (1 - (p * 4095 - 4094)) + q * 4095 ≤ 1 := by nlinarith
  have hb1 : |T 4094 - T 4095| ≤ M := by
    rw [abs_sub_comm]
    have := hM 4094 (by norm_num)
    norm_num at this
    exact this
  have hb2 : |T 4095 - T 0| ≤ M := by rw [abs_sub_comm]; exact hMw
  have hb3 : |T 0 - T 1| ≤ M := by
    rw [abs_sub_comm]
    have := hM 0 (by norm_num)
    norm_num at this
    exact this
  calc |(T 4094 - T 4095) * (1 - (p * 4095 - 4094)) + (T 4095 - T 0) +
        (T 0 - T 1) * (q * 4095)|
      ≤ |(T 4094 - T 4095) * (1 - (p * 4095 - 4094)) + (T 4095 - T 0)| +
        |(T 0 - T 1) * (q * 4095)| := abs_add _ _
    _ ≤ |(T 4094 - T 4095) * (1 - (p * 4095 - 4094))| + |T 4095 - T 0| +
        |(T 0 - T 1) * (q * 4095)| := by
        have := abs_add ((T 4094 - T 4095) * (1 - (p * 4095 - 4094))) (T 4095 - T 0)
        linarith
    _ = |T 4094 - T 4095| * (1 - (p * 4095 - 4094)) + |T 4095 - T 0| +
        |T 0 - T 1| * (q * 4095) := by
        rw [abs_mul, abs_mul, abs_of_nonneg hA0, abs_of_nonneg hsq0]
    _ ≤ M * (1 - (p * 4095 - 4094)) + M + M * (q * 4095) := by
        have e1 := mul_le_mul_of_nonneg_right hb1 hA0
        have e2 := mul_le_mul_of_nonneg_right hb3 hsq0
        linarith
    _ = M * ((1 - (p * 4095 - 4094)) + q * 4095) + M := by ring
    _ ≤ 2 * M := by nlinarith

/-- C9 (amended): for a fixed table whose cyclic per-sample slope (consecutive
entries plus the wrap pair) is at most M, any two phases one sample (1/4095 of
a cycle, measured circularly) apart give lookup outputs at most 2·M apart. -/
theorem C9_lookup_continuity_amended (T : ℕ → ℝ) (M p q : ℝ)
    (hM : ∀ i : ℕ, i < 4095 → |T (i + 1) - T i| ≤ M)
    (hMw : |T 0 - T 4095| ≤ M)
    (hp0 : 0 ≤ p) (hp1 : p < 1) (hq0 : 0 ≤ q) (hq1 : q < 1)
    (hdist : |p - q| ≤ 1 / 4095 ∨ 1 - 1 / 4095 ≤ |p - q|) :
    |wavetable_lookup T p - wavetable_lookup T q| ≤ 2 * M := by
  have hM0 : 0 ≤ M := le_trans (abs_nonneg _) (hM 0 (by norm_num))
  rcases hdist with hnear | hfar
  · rcases le_total p q with hle | hle
    · have h2 : q - p ≤ 1 / 4095 := by
        rw [abs_sub_comm, abs_of_nonneg (by linarith)] at hnear
        exact hnear
      have h3 := lookup_close_within T M p q hM hp0 hle hq1 h2
      rw [abs_sub_comm]
      linarith
    · have h2 : p - q ≤ 1 / 4095 := by
        rw [abs_of_nonneg (by linarith)] at hnear
        exact hnear
      have h3 := lookup_close_within T M q p hM hq0 hle hp1 h2
      linarith
  · rcases le_total q p with hle | hle
    · have h2 : (1 - p) + q ≤ 1 / 4095 := by
        rw [abs_of_nonneg (by linarith)] at hfar
        linarith
      exact lookup_close_wrap T M p q hM hMw hq0 hle hp1 h2
    · have h2 : (1 - q) + p ≤ 1 / 4095 := by
        rw [abs_sub_comm, abs_of_nonneg (by linarith)] at hfar
        linarith
      have h3 := lookup_close_wrap T M q p hM hMw hp0 hle hq1 h2
      rw [abs_sub_comm]
      exact h3

theorem triangle_table_slope (i : ℕ) (hi : i < 4095) :
    |generate_triangle_table 4096 (i + 1) - generate_triangle_table 4096 i| ≤ 1 / 1024 := by
  simp only [generate_triangle_table]
  push_cast
  have habs : ∀ x : ℝ, x = 1 / 1024 ∨ x = -(1 / 1024) → |x| ≤ 1 / 1024 := by
    intro x hx
    rcases hx with h | h <;> rw [h] <;> rw [abs_le] <;> constructor <;> norm_num
  by_cases hA : i + 1 < 1024
  · have c1 : ((i:ℝ)) / 4096 < 0.25 := by
      rw [div_lt_iff₀ (by norm_num : (0:ℝ) < 4096)]
      have : (i:ℝ) < 1023 := by exact_mod_cast (by omega : i < 1023)
      linarith
    have c2 : ((i:ℝ) + 1) / 4096 < 0.25 := by
      rw [div_lt_iff₀ (by norm_num : (0:ℝ) < 4096)]
      have : (i:ℝ) + 1 < 1024 := by exact_mod_cast (by omega : i + 1 < 1024)
      linarith
    rw [if_pos c2, if_pos c1]
    apply habs
    left
    ring
  · by_cases hB : i < 1024
    · have hieq : i = 1023 := by omega
      subst hieq
      norm_num
      apply habs
      left
      ring
    · by_cases hC : i + 1 < 3072
      · have c1 : ¬ ((i:ℝ)) / 4096 < 0.25 := by
          rw [not_lt, le_div_iff₀ (by norm_num : (0:ℝ) < 4096)]
          have : (1024:ℝ) ≤ (i:ℝ) := by exact_mod_cast (by omega : 1024 ≤ i)
          linarith
        have c2 : ((i:ℝ)) / 4096 < 0.75 := by
          rw [div_lt_iff₀ (by norm_num : (0:ℝ) < 4096)]
          have : (i:ℝ) < 3071 := by exact_mod_cast (by omega : i < 3071)
          linarith
        have c3 : ¬ ((i:ℝ) + 1) / 4096 < 0.25 := by
          rw [not_lt, le_div_iff₀ (by norm_num : (0:ℝ) < 4096)]
          have : (1024:ℝ) ≤ (i:ℝ) := by exact_mod_cast (by omega : 1024 ≤ i)
          linarith
        have c4 : ((i:ℝ) + 1) / 4096 < 0.75 := by
          rw [div_lt_iff₀ (by norm_num : (0:ℝ) < 4096)]
          have : (i:ℝ) + 1 < 3072 := by exact_mod_cast (by omega : i + 1 < 3072)
          linarith
        rw [if_neg c3, if_pos c4, if_neg c1, if_pos c2]
        apply habs
        right
        ring
      · by_cases hD : i < 3072
        · have hieq : i = 3071 := by omega
          subst hieq
          norm_num
          apply habs
          left
          ring
        · have c1 : ¬ ((i:ℝ)) / 4096 < 0.25 := by
            rw [not_lt, le_div_iff₀ (by norm_num : (0:ℝ) < 4096)]
            have : (3072:ℝ) ≤ (i:ℝ) := by exact_mod_cast (by omega : 3072 ≤ i)
            linarith
          have c2 : ¬ ((i:ℝ)) / 4096 < 0.75 := by
            rw [not_lt, le_div_iff₀ (by norm_num : (0:ℝ) < 4096)]
            have : (3072:ℝ) ≤ (i:ℝ) := by exact_mod_cast (by omega : 3072 ≤ i)
            linarith
          have c3 : ¬ ((i:ℝ) + 1) / 4096 < 0.25 := by
            rw [not_lt, le_div_iff₀ (by norm_num : (0:ℝ) < 4096)]
            have : (3072:ℝ) ≤ (i:ℝ) := by exact_mod_cast (by omega : 3072 ≤ i)
            linarith
          have c4 : ¬ ((i:ℝ) + 1) / 4096 < 0.75 := by
            rw [not_lt, le_div_iff₀ (by norm_num : (0:ℝ) < 4096)]
            have : (3072:ℝ) ≤ (i:ℝ) := by exact_mod_cast (by omega : 3072 ≤ i)
            linarith
          rw [if_neg c3, if_neg c4, if_neg c1, if_neg c2]
          apply habs
          left
          ring

theorem triangle_table_wrap :
    |generate_triangle_table 4096 0 - generate_triangle_table 4096 4095| ≤ 1 / 1024 := by
  have t0 : generate_triangle_table 4096 0 = 0 := by
    norm_num [generate_triangle_table]
  have t1 : generate_triangle_table 4096 4095 = -(1 / 1024) := by
    norm_num [generate_triangle_table]
  rw [t0, t1]
  rw [abs_le]
  constructor <;> norm_num

theorem C9_tri_lookup_p : wavetable_lookup (generate_triangle_table 4096) (8189 / 8190) = -(3 / 2048) := by
  rw [wavetable_lookup_eq _ _ (by norm_num) (by norm_num)]
  have hs : (8189 / 8190 : ℝ) * 4095 = 8189 / 2 := by norm_num
  rw [hs]
  have hf : ⌊(8189 / 2 : ℝ)⌋ = 4094 := by
    rw [Int.floor_eq_iff]
    constructor <;> norm_num
  rw [hf]
  rw [show ((4094:ℤ).toNat) = 4094 from rfl]
  have t1 : generate_triangle_table 4096 4094 = -(1 / 512) := by
    norm_num [generate_triangle_table]
  have t2 : generate_triangle_table 4096 (4094 + 1) = -(1 / 1024) := by
    norm_num [generate_triangle_table]
  rw [t1, t2]
  push_cast
  norm_num

theorem C9_tri_lookup_q : wavetable_lookup (generate_triangle_table 4096) (1 / 8190) = 1 / 2048 := by
  rw [wavetable_lookup_eq _ _ (by norm_num) (by norm_num)]
  have hs : (1 / 8190 : ℝ) * 4095 = 1 / 2 := by norm_num
  rw [hs]
  have hf : ⌊(1 / 2 : ℝ)⌋ = 0 := by
    rw [Int.floor_eq_iff]
    constructor <;> norm_num
  rw [hf]
  rw [show ((0:ℤ).toNat) = 0 from rfl]
  have t1 : generate_triangle_table 4096 0 = 0 := by
    norm_num [generate_triangle_table]
  have t2 : generate_triangle_table 4096 (0 + 1) = 1 / 1024 := by
    norm_num [generate_triangle_table]
  rw [t1, t2]
  push_cast
  norm_num

/-- C9 counterexample: the triangle corner table has cyclic per-sample maximum
slope 1/1024, yet the phases 8189/8190 and 1/8190 — one sample apart across
the wrap boundary — give lookup outputs 1/512 apart, twice that slope. The
lookup scales phase by 4095 = SIZE-1, so the wrap jump exceeds the per-sample
slope and the claim as stated fails. -/
theorem C9_lookup_continuity_counterexample :
    (∀ i : ℕ, i < 4095 →
        |generate_triangle_table 4096 (i + 1) - generate_triangle_table 4096 i| ≤ 1 / 1024) ∧
    |generate_triangle_table 4096 0 - generate_triangle_table 4096 4095| ≤ 1 / 1024 ∧
    (0 ≤ (8189 / 8190 : ℝ) ∧ (8189 / 8190 : ℝ) < 1) ∧
    (0 ≤ (1 / 8190 : ℝ) ∧ (1 / 8190 : ℝ) < 1) ∧
    |(8189 / 8190 : ℝ) - 1 / 8190| = 1 - 1 / 4095 ∧
    ¬ (|wavetable_lookup (generate_triangle_table 4096) (8189 / 8190) -
        wavetable_lookup (generate_triangle_table 4096) (1 / 8190)| ≤ 1 / 1024) := by
  refine ⟨triangle_table_slope, triangle_table_wrap, ⟨by norm_num, by norm_num⟩,
    ⟨by norm_num, by norm_num⟩, ?_, ?_⟩
  · rw [abs_of_nonneg (by norm_num : (0:ℝ) ≤ 8189 / 8190 - 1 / 8190)]
    norm_num
  · rw [C9_tri_lookup_p, C9_tri_lookup_q]
    rw [show (-(3 / 2048 : ℝ) - 1 / 2048) = -(1 / 512) from by norm_num]
    rw [abs_neg, abs_of_nonneg (by norm_num : (0:ℝ) ≤ 1 / 512)]
    norm_num

theorem C9_lookup_continuity_amended_witness :
    |wavetable_lookup (generate_square_table 4096) (1 / 2) -
      wavetable_lookup (generate_square_table 4096) (1 / 2)| ≤ 2 * 2 := by
  apply C9_lookup_continuity_amended (generate_square_table 4096) 2 (1 / 2) (1 / 2)
  · intro i _
    simp only [generate_square_table]
    split_ifs <;> (rw [abs_le]; constructor <;> norm_num)
  · simp only [generate_square_table]
    split_ifs <;> (rw [abs_le]; constructor <;> norm_num)
  · norm_num
  · norm_num
  · norm_num
  · norm_num
  · left
    norm_num

/-! ## Claim C6: noise morph endpoints and the equal-power crossfade -/

/-- C6: with morphing enabled, at an integer selector value the morphed
output is exactly the corresponding type's sample times the uniform 0.4
scaling (so fractional position 0 gives the lower adjacent type and reaching
1 gives the upper adjacent type), and strictly between two integers the
output is the equal-power cosine/sine crossfade of the smoothstep-shaped
fraction applied to the two adjacent types' samples. -/
theorem C6_noise_morph (x : NoisesState) (hm : x.morphing_enabled = true) :
    (∀ k : ℕ, k ≤ 6 →
      noises_morph_types x (k : ℝ) =
        ((noises_noise_types x).1 k * 0.4, (noises_noise_types x).2)) ∧
    (∀ (k : ℕ) (f : ℝ), k ≤ 5 → 0.0001 ≤ f → f < 1 →
      noises_morph_types x ((k : ℝ) + f) =
        (((noises_noise_types x).1 k * Real.cos (f * f * (3 - 2 * f) * Real.pi * 0.5) +
          (noises_noise_types x).1 (k + 1) * Real.sin (f * f * (3 - 2 * f) * Real.pi * 0.5)) * 0.4,
         (noises_noise_types x).2)) := by
  constructor
  · intro k hk
    simp only [noises_morph_types]
    by_cases hk0 : k = 0
    · subst hk0
      norm_num
    · by_cases hk6 : k = 6
      · subst hk6
        norm_num
      · have hc1 : ¬ ((k:ℝ) ≤ 0) := not_le.mpr (by exact_mod_cast Nat.pos_of_ne_zero hk0)
        have hc2 : ¬ ((k:ℝ) ≥ 6) := not_le.mpr (by exact_mod_cast (by omega : k < 6))
        rw [if_neg hc1, if_neg hc2]
        have hct : ctrunc ((k:ℕ):ℝ) = (k:ℤ) := by
          rw [ctrunc_of_nonneg _ (Nat.cast_nonneg k)]
          exact_mod_cast Int.floor_natCast k
        rw [hct]
        have hfrac : (k:ℝ) - ((k:ℤ):ℝ) = 0 := by push_cast; ring
        rw [hfrac]
        rw [if_neg (by simp [hm])]
        rw [if_pos (by norm_num : (0:ℝ) < 0.0001)]
        rw [Int.toNat_natCast]
  · intro k f hk hf0 hf1
    simp only [noises_morph_types]
    have hc1 : ¬ ((k:ℝ) + f ≤ 0) := by
      have : (0:ℝ) ≤ (k:ℝ) := Nat.cast_nonneg k
      push_neg
      linarith
    have hc2 : ¬ ((k:ℝ) + f ≥ 6) := by
      have : (k:ℝ) ≤ 5 := by exact_mod_cast hk
      push_neg
      linarith
    rw [if_neg hc1, if_neg hc2]
    have hct : ctrunc ((k:ℝ) + f) = (k:ℤ) := by
      rw [ctrunc_of_nonneg _ (by positivity : (0:ℝ) ≤ (k:ℝ) + f)]
      rw [add_comm]
      rw [Int.floor_add_nat]
      rw [Int.floor_eq_zero_iff.mpr ⟨by linarith, hf1⟩]
      ring
    rw [hct]
    have hfrac : (k:ℝ) + f - ((k:ℤ):ℝ) = f := by push_cast; ring
    rw [hfrac]
    rw [if_neg (by simp [hm])]
    rw [if_neg (not_lt.mpr hf0)]
    rw [Int.toNat_natCast]

theorem C6_noise_morph_witness :
    noises_morph_types (noises_new 1) ((1:ℕ) : ℝ) =
      ((noises_noise_types (noises_new 1)).1 1 * 0.4,
       (noises_noise_types (noises_new 1)).2) ∧
    noises_morph_types (noises_new 1) (((1:ℕ) : ℝ) + 1 / 2) =
      (((noises_noise_types (noises_new 1)).1 1 *
          Real.cos ((1/2) * (1/2) * (3 - 2 * (1/2)) * Real.pi * 0.5) +
        (noises_noise_types (noises_new 1)).1 (1 + 1) *
          Real.sin ((1/2) * (1/2) * (3 - 2 * (1/2)) * Real.pi * 0.5)) * 0.4,
       (noises_noise_types (noises_new 1)).2) := by
  have h := C6_noise_morph (noises_new 1) rfl
  exact ⟨h.1 1 (by norm_num), h.2 1 (1/2) (by norm_num) (by norm_num) (by norm_num)⟩

/-! ## Claim C7: seed determinism of noises~ -/

/-- C7: two separately constructed noises~ instances (arbitrary, possibly
different auto-seed values r1, r2) that receive the same explicit seed
message produce identical output sequences on identical inputs; the output
stream is a function of the per-instance state alone. -/
theorem C7_seed_determinism (r1 r2 : ℕ) (seed : ℤ) (ins : ℕ → ℝ × ℝ) (n : ℕ) :
    noises_out (noises_seed seed (noises_new r1)) ins n =
    noises_out (noises_seed seed (noises_new r2)) ins n := by
  have h : noises_seed seed (noises_new r1) = noises_seed seed (noises_new r2) := rfl
  rw [h]

/-! ## Claim C10: the shared static AD attack counter -/

theorem decay_bang_mode_comm (x : DecayState) :
    decay_bang { x with envelope_mode := 0 } =
      { decay_bang x with envelope_mode := 0 } := by
  simp only [decay_bang]

theorem decay_bang_mode (x : DecayState) :
    (decay_bang x).envelope_mode = x.envelope_mode := by
  simp only [decay_bang]

theorem decay_sample_mode (g : ℕ) (x : DecayState) (t c : ℝ) :
    (decay_sample g x t c).2.2.envelope_mode = x.envelope_mode := by
  simp only [decay_sample]
  split_ifs <;> rfl

theorem decay_ad_one_44 (o : ℝ) : decay_ad 1 44 o = (o, 44) := by
  simp [decay_ad]

theorem decay_ad_zero (g : ℕ) (o : ℝ) : decay_ad 0 g o = (o, g) := by
  simp [decay_ad]

theorem decay_sample_ad44 (x : DecayState) (t c : ℝ) (hx : x.envelope_mode = 1) :
    (decay_sample 44 x t c).1 = (decay_sample 44 { x with envelope_mode := 0 } t c).1 ∧
    (decay_sample 44 x t c).2.1 = 44 ∧
    (decay_sample 44 { x with envelope_mode := 0 } t c).2.2 =
      { (decay_sample 44 x t c).2.2 with envelope_mode := 0 } := by
  by_cases hact : x.is_active
  · simp only [decay_sample, hx, hact, decay_ad_one_44, decay_ad_zero,
      eq_self_iff_true, if_true]
    exact ⟨trivial, trivial, trivial⟩
  · simp only [decay_sample, hx, hact, Bool.false_eq_true, if_false]
    exact ⟨trivial, trivial, trivial⟩

theorem decay_sample_counter_mode0 (g : ℕ) (x : DecayState) (t c : ℝ)
    (hx : x.envelope_mode = 0) : (decay_sample g x t c).2.1 = g := by
  by_cases hact : x.is_active
  · simp only [decay_sample, hx, hact, decay_ad_zero, eq_self_iff_true, if_true]
  · simp only [decay_sample, hx, hact, Bool.false_eq_true, if_false]

/-- C10: the AD attack counter is global (outside the per-instance state);
a bang never changes it, and once it has reached 44, any further event
sequence (bangs and samples) on an instance in AD mode produces exactly the
outputs of the same instance in plain decay mode (no attack ramp) and leaves
the counter at 44 forever. -/
theorem C10_ad_attack_counter :
    (∀ (g : ℕ) (x : DecayState), (decay_run_events g x [DecayEvent.bang]).2.1 = g) ∧
    (∀ (es : List DecayEvent) (x : DecayState), x.envelope_mode = 1 →
      (decay_run_events 44 x es).1 =
        (decay_run_events 44 { x with envelope_mode := 0 } es).1 ∧
      (decay_run_events 44 x es).2.1 = 44) := by
  constructor
  · intro g x
    rfl
  · intro es
    induction es with
    | nil =>
      intro x _
      exact ⟨rfl, rfl⟩
    | cons e rest ih =>
      intro x hx
      cases e with
      | bang =>
        simp only [decay_run_events]
        rw [decay_bang_mode_comm]
        exact ih (decay_bang x) (by rw [decay_bang_mode]; exact hx)
      | tick t c =>
        simp only [decay_run_events]
        obtain ⟨ho, hg, hs⟩ := decay_sample_ad44 x t c hx
        have hg0 : (decay_sample 44 { x with envelope_mode := 0 } t c).2.1 = 44 :=
          decay_sample_counter_mode0 44 _ t c (by simp)
        have hmode : (decay_sample 44 x t c).2.2.envelope_mode = 1 := by
          rw [decay_sample_mode]
          exact hx
        have ih2 := ih (decay_sample 44 x t c).2.2 hmode
        rw [ho, hg, hg0, hs]
        exact ⟨congrArg _ ih2.1, ih2.2⟩

theorem C10_ad_attack_counter_witness :
    ((decay_run_events 7 (decay_new 1 0 1 44100) [DecayEvent.bang]).2.1 = 7) ∧
    ((decay_run_events 44 { decay_new 1 0 1 44100 with envelope_mode := 1 }
        [DecayEvent.bang, DecayEvent.tick 1 0]).1 =
      (decay_run_events 44
        { { decay_new 1 0 1 44100 with envelope_mode := 1 } with envelope_mode := 0 }
        [DecayEvent.bang, DecayEvent.tick 1 0]).1) := by
  constructor
  · exact C10_ad_attack_counter.1 7 (decay_new 1 0 1 44100)
  · exact (C10_ad_attack_counter.2 [DecayEvent.bang, DecayEvent.tick 1 0]
      { decay_new 1 0 1 44100 with envelope_mode := 1 } rfl).1

/-! ## Claim C5: decay~ end-to-end scenario -/

theorem decay_smoothing_zero (cp : ℕ) (ssl o : ℝ) :
    decay_smoothing cp 0 ssl o = (o, 0) := by
  simp [decay_smoothing]

theorem exp_neg_inv_44100_bounds :
    1 / 4 ≤ Real.exp (-1 / 44100) ∧ Real.exp (-1 / 44100) ≤ 1 := by
  constructor
  · have h := Real.add_one_le_exp (-1 / 44100)
    linarith
  · rw [show (-1 / 44100 : ℝ) = -(1 / 44100) by norm_num]
    rw [Real.exp_neg]
    rw [inv_le_one_iff₀]
    right
    have h := Real.add_one_le_exp (1 / 44100)
    linarith

theorem decayC5_step (x : DecayState) (e : ℝ)
    (h1 : x.decay_time_float = 1) (h2 : x.time_has_signal = false)
    (h3 : x.curve_has_signal = false) (h4 : x.curve_response = 1)
    (h5 : x.sr = 44100) (h6 : x.peak = 1) (h7 : x.is_active = true)
    (h8 : x.envelope_mode = 0) (h9 : x.smooth_samples = 0)
    (h10 : x.envelope = e) (he : 1 / 8 ≤ e) :
    (decay_sample 0 x 0 0).1 = e * Real.exp (-1 / 44100) ∧
    (decay_sample 0 x 0 0).2.2 = { x with envelope := e * Real.exp (-1 / 44100) } := by
  obtain ⟨hc4, hc1⟩ := exp_neg_inv_44100_bounds
  have hec : 1 / 32 ≤ e * Real.exp (-1 / 44100) := by nlinarith
  have hclamp : clamp 1 0.001 60 = 1 := by norm_num [clamp]
  have hcoeff : decay_calculate_coefficient 1 44100 = Real.exp (-1 / 44100) := by
    rw [decay_calculate_coefficient]
    norm_num
  have hfc : ∀ cv : ℝ, decay_final_curve false 1 cv = 0 := by
    intro cv
    norm_num [decay_final_curve]
  have hcurve : decay_apply_curve (e * Real.exp (-1 / 44100)) 0 =
      e * Real.exp (-1 / 44100) := by
    rw [decay_apply_curve, if_pos (Or.inl rfl)]
  have hstop : ¬ (e * Real.exp (-1 / 44100) < 1 / 10 ^ 15) :=
    not_lt.mpr (by nlinarith)
  simp only [decay_sample, h1, h2, h3, h4, h5, h6, h7, h8, h9, h10,
    Bool.false_eq_true, if_false, if_true, hclamp, hcoeff, hfc, div_one, mul_one,
    hcurve, decay_ad_zero, decay_smoothing_zero, or_self]
  rw [if_neg hstop]
  constructor
  · exact denormal_fix_eq_of_ge _ (1 / 32) (by norm_num) hec
  · rw [show true = x.is_active from h7.symm]
    rw [if_neg hstop]

theorem exp_neg_two_ge : 1 / 8 ≤ Real.exp (-2) := by
  have h1 : Real.exp 2 = Real.exp 1 * Real.exp 1 := by
    rw [← Real.exp_add]
    norm_num
  have h2 := Real.exp_one_lt_d9
  have h3 : Real.exp 2 ≤ 8 := by nlinarith [Real.exp_pos 1]
  have h4 : Real.exp (-2) = (Real.exp 2)⁻¹ := by
    rw [← Real.exp_neg]
  rw [h4]
  have h5 : (0:ℝ) < Real.exp 2 := Real.exp_pos 2
  rw [le_inv_comm₀ (by norm_num) h5]
  calc Real.exp 2 ≤ 8 := h3
  _ = (1 / 8)⁻¹ := by norm_num

theorem decayC5_pow_ge (m : ℕ) (hm : m ≤ 88200) :
    1 / 8 ≤ Real.exp (-1 / 44100) ^ m := by
  rw [← Real.exp_nat_mul]
  have h1 : (-2 : ℝ) ≤ (m : ℝ) * (-1 / 44100) := by
    have : (m : ℝ) ≤ 88200 := by exact_mod_cast hm
    nlinarith
  calc (1:ℝ) / 8 ≤ Real.exp (-2) := exp_neg_two_ge
  _ ≤ Real.exp ((m : ℝ) * (-1 / 44100)) := Real.exp_le_exp.mpr h1

theorem decayC5_states (n : ℕ) (hn : n ≤ 88200) :
    decay_states 0 (decay_bang (decay_new 1 0 1 44100)) (fun _ => (0, 0)) n =
      (0, { decay_bang (decay_new 1 0 1 44100) with
            envelope := Real.exp (-1 / 44100) ^ n }) := by
  set x0 := decay_bang (decay_new 1 0 1 44100) with hx0
  have f1 : x0.decay_time_float = 1 := by norm_num [hx0, decay_bang, decay_new, clamp]
  have f2 : x0.time_has_signal = false := by norm_num [hx0, decay_bang, decay_new]
  have f3 : x0.curve_has_signal = false := by norm_num [hx0, decay_bang, decay_new]
  have f4 : x0.curve_response = 1 := by norm_num [hx0, decay_bang, decay_new]
  have f5 : x0.sr = 44100 := by norm_num [hx0, decay_bang, decay_new]
  have f6 : x0.peak = 1 := by norm_num [hx0, decay_bang, decay_new, clamp]
  have f7 : x0.is_active = true := by norm_num [hx0, decay_bang, decay_new]
  have f8 : x0.envelope_mode = 0 := by norm_num [hx0, decay_bang, decay_new]
  have f9 : x0.smooth_samples = 0 := by norm_num [hx0, decay_bang, decay_new]
  have fenv : x0.envelope = 1 := by norm_num [hx0, decay_bang, decay_new, clamp]
  induction n with
  | zero =>
    simp only [decay_states, pow_zero]
    rw [show (1:ℝ) = x0.envelope from fenv.symm]
  | succ n ih =>
    have hn' : n ≤ 88200 := by omega
    simp only [decay_states]
    rw [ih hn']
    have hstep := decayC5_step { x0 with envelope := Real.exp (-1 / 44100) ^ n }
      (Real.exp (-1 / 44100) ^ n)
      (by simp [f1]) (by simp [f2]) (by simp [f3]) (by simp [f4]) (by simp [f5])
      (by simp [f6]) (by simp [f7]) (by simp [f8]) (by simp [f9]) rfl
      (decayC5_pow_ge n hn')
    have hcounter : (decay_sample 0 { x0 with envelope := Real.exp (-1 / 44100) ^ n } 0 0).2.1 = 0 :=
      decay_sample_counter_mode0 0 _ 0 0 (by simp [f8])
    have hpair : (decay_sample 0 { x0 with envelope := Real.exp (-1 / 44100) ^ n } 0 0).2 =
        ((decay_sample 0 { x0 with envelope := Real.exp (-1 / 44100) ^ n } 0 0).2.1,
         (decay_sample 0 { x0 with envelope := Real.exp (-1 / 44100) ^ n } 0 0).2.2) := rfl
    rw [hpair, hcounter, hstep.2]
    rw [show Real.exp (-1 / 44100) ^ n * Real.exp (-1 / 44100) =
        Real.exp (-1 / 44100) ^ (n + 1) from (pow_succ _ _).symm]

theorem decayC5_out_eq (n : ℕ) (hn : n ≤ 88200) :
    decayC5_out n = Real.exp (-1 / 44100) ^ (n + 1) := by
  have hx0fields := decayC5_states n hn
  unfold decayC5_out decay_out
  rw [hx0fields]
  set x0 := decay_bang (decay_new 1 0 1 44100) with hx0
  have hstep := decayC5_step { x0 with envelope := Real.exp (-1 / 44100) ^ n }
    (Real.exp (-1 / 44100) ^ n)
    (by norm_num [hx0, decay_bang, decay_new, clamp])
    (by norm_num [hx0, decay_bang, decay_new])
    (by norm_num [hx0, decay_bang, decay_new])
    (by norm_num [hx0, decay_bang, decay_new])
    (by norm_num [hx0, decay_bang, decay_new])
    (by norm_num [hx0, decay_bang, decay_new, clamp])
    (by norm_num [hx0, decay_bang, decay_new])
    (by norm_num [hx0, decay_bang, decay_new])
    (by norm_num [hx0, decay_bang, decay_new])
    rfl (decayC5_pow_ge n hn)
  rw [hstep.1]
  rw [show Real.exp (-1 / 44100) ^ n * Real.exp (-1 / 44100) =
      Real.exp (-1 / 44100) ^ (n + 1) from (pow_succ _ _).symm]

/-- C5: decay~ constructed as (decay_time 1.0 s, curve 0.0, peak 1.0) at
44100 Hz with default attributes, triggered by a bang: the first output
sample is within 1e-3 of 1.0, and the output exactly 44100 samples later is
within 1e-3 of exp(-1). -/
theorem C5_decay_end_to_end :
    |decayC5_out 0 - 1| ≤ 1 / 1000 ∧
    |decayC5_out 44100 - Real.exp (-1)| ≤ 1 / 1000 := by
  have h0 := decayC5_out_eq 0 (by norm_num)
  have h1 := decayC5_out_eq 44100 (by norm_num)
  rw [h0, h1]
  have ha := Real.add_one_le_exp (-1 / 44100 : ℝ)
  have hb : Real.exp (-1 / 44100) ≤ 1 := exp_neg_inv_44100_bounds.2
  constructor
  · rw [pow_one, abs_le]
    constructor <;> linarith
  · have hpow : Real.exp (-1 / 44100) ^ (44100 + 1) = Real.exp (-(44101 / 44100)) := by
      rw [← Real.exp_nat_mul]
      norm_num
    rw [hpow]
    have hsplit : Real.exp (-(44101 / 44100)) = Real.exp (-1) * Real.exp (-1 / 44100) := by
      rw [← Real.exp_add]
      norm_num
    have hexp1 : Real.exp (-1) ≤ 1 := by
      calc Real.exp (-1) ≤ Real.exp 0 := Real.exp_le_exp.mpr (by norm_num)
      _ = 1 := Real.exp_zero
    have hexp1p : (0:ℝ) < Real.exp (-1) := Real.exp_pos _
    rw [hsplit, abs_le]
    constructor
    · have key : Real.exp (-1) * (1 - Real.exp (-1 / 44100)) ≤ 1 / 44100 := by
        have h2 : 1 - Real.exp (-1 / 44100) ≤ 1 / 44100 := by linarith
        have h3 : 0 ≤ 1 - Real.exp (-1 / 44100) := by linarith
        nlinarith
      nlinarith
    · have h4 : Real.exp (-1) * Real.exp (-1 / 44100) ≤ Real.exp (-1) := by
        nlinarith [Real.exp_pos (-1 / 44100 : ℝ)]
      linarith

/-! ## Claim C3: ssm2044~ stability -/

theorem abs_tanh_le_one (y : ℝ) : |Real.tanh y| ≤ 1 := by
  rw [abs_le]
  constructor
  · have h := tanh_lt_one_of_real (-y)
    rw [Real.tanh_neg] at h
    linarith
  · exact le_of_lt (tanh_lt_one_of_real y)

theorem soft_saturation_abs_le (v d : ℝ) (hd : 0 < d) :
    |soft_saturation v d| ≤ 1 / d := by
  simp only [soft_saturation, if_neg (not_le.mpr hd)]
  rw [abs_div, abs_of_pos hd]
  gcongr
  exact abs_tanh_le_one _

theorem ssm_g_bounds (p : Ssm2044Params) (c r : ℝ) :
    0 ≤ (compute_filter_coefficients p c r).1 ∧
    (compute_filter_coefficients p c r).1 ≤ 0.99 := by
  unfold compute_filter_coefficients
  exact ⟨le_clamp _ 0 0.99 (by norm_num), clamp_le _ 0 0.99 (by norm_num)⟩

theorem ssm_k_bounds (p : Ssm2044Params) (c r : ℝ) (h0 : 0 ≤ r) (h4 : r ≤ 4) :
    0 ≤ (compute_filter_coefficients p c r).2 ∧
    (compute_filter_coefficients p c r).2 ≤ 16 := by
  unfold compute_filter_coefficients
  simp only
  split_ifs with hrc
  · constructor
    · have hden : (0:ℝ) < 1 + r * 0.3 := by nlinarith
      positivity
    · have hden : (1:ℝ) ≤ 1 + r * 0.3 := by nlinarith
      have hcomp : 1 / (1 + r * 0.3) ≤ 1 := by
        rw [div_le_one (by linarith)]
        linarith
      have hcomp0 : 0 ≤ 1 / (1 + r * 0.3) := by positivity
      nlinarith
  · constructor <;> nlinarith

theorem ssm_stage_bound (s f g B : ℝ) (hg0 : 0 ≤ g) (hg1 : g ≤ 1)
    (hs : |s| ≤ B) (hf : |f| ≤ B) : |s + g * (f - s)| ≤ B := by
  rw [abs_le] at hs hf ⊢
  constructor <;> nlinarith [hs.1, hs.2, hf.1, hf.2]

theorem ssm2044_sample_bounded (p : Ssm2044Params) (st : Ssm2044State)
    (a c r gn : ℝ) (hw : 0 < p.warmth_amount)
    (hInv : ssm_inv (4 / 3 + 16 / (2 * p.warmth_amount)) st) :
    |(ssm2044_sample p st a c r gn).1| ≤ 4 / 3 + 16 / (2 * p.warmth_amount) ∧
    ssm_inv (4 / 3 + 16 / (2 * p.warmth_amount)) ((ssm2044_sample p st a c r gn).2) := by
  set B := 4 / 3 + 16 / (2 * p.warmth_amount) with hB
  obtain ⟨i1, i2, i3, i4, i5⟩ := hInv
  set rr := clamp r 0 4 with hrr
  have hr0 : 0 ≤ rr := le_clamp r 0 4 (by norm_num)
  have hr4 : rr ≤ 4 := clamp_le r 0 4 (by norm_num)
  set cc := clamp c 20 20000 with hcc
  set gg := clamp gn 0 4 with hgg
  obtain ⟨hg0, hg1⟩ := ssm_g_bounds p cc rr
  obtain ⟨hk0, hk16⟩ := ssm_k_bounds p cc rr hr0 hr4
  set g := (compute_filter_coefficients p cc rr).1 with hgdef
  set k := (compute_filter_coefficients p cc rr).2 with hkdef
  -- input saturation: the drive is one of 0.75, 1.5, 3, always at least 3/4
  have hsat_in : |soft_saturation (a * gg)
      (if p.character_mode = 0 then 1.5 * 0.5
       else if p.character_mode = 2 then 1.5 * 2 else 1.5)| ≤ 4 / 3 := by
    split_ifs with hc0 hc2
    · have h := soft_saturation_abs_le (a * gg) (1.5 * 0.5) (by norm_num)
      norm_num at h ⊢
      linarith
    · have h := soft_saturation_abs_le (a * gg) (1.5 * 2) (by norm_num)
      norm_num at h ⊢
      linarith
    · have h := soft_saturation_abs_le (a * gg) 1.5 (by norm_num)
      norm_num at h ⊢
      linarith
  have hsat_fb : |soft_saturation st.feedback_sample (2 * p.warmth_amount)| ≤
      1 / (2 * p.warmth_amount) :=
    soft_saturation_abs_le _ _ (by linarith)
  have hak : |(if p.self_oscillation then k else k * 0.8)| ≤ 16 := by
    split_ifs
    · rw [abs_of_nonneg hk0]
      exact hk16
    · rw [abs_of_nonneg (by nlinarith)]
      nlinarith
  have hw2 : 0 < 2 * p.warmth_amount := by linarith
  have hfbin : |soft_saturation (a * gg)
      (if p.character_mode = 0 then 1.5 * 0.5
       else if p.character_mode = 2 then 1.5 * 2 else 1.5) +
      (if p.self_oscillation then k else k * 0.8) *
        soft_saturation st.feedback_sample (2 * p.warmth_amount)| ≤ B := by
    have h1 := abs_add (soft_saturation (a * gg)
      (if p.character_mode = 0 then 1.5 * 0.5
       else if p.character_mode = 2 then 1.5 * 2 else 1.5))
      ((if p.self_oscillation then k else k * 0.8) *
        soft_saturation st.feedback_sample (2 * p.warmth_amount))
    have h2 : |(if p.self_oscillation then k else k * 0.8) *
        soft_saturation st.feedback_sample (2 * p.warmth_amount)| ≤
        16 * (1 / (2 * p.warmth_amount)) := by
      rw [abs_mul]
      have ha := abs_nonneg (soft_saturation st.feedback_sample (2 * p.warmth_amount))
      have hb := abs_nonneg ((if p.self_oscillation then k else k * 0.8))
      nlinarith
    rw [hB]
    have h3 : 16 * (1 / (2 * p.warmth_amount)) = 16 / (2 * p.warmth_amount) := by ring
    linarith [h1, h2, hsat_in]
  have hBpos : 0 < B := by
    rw [hB]
    positivity
  -- the four cascaded stages
  simp only [ssm2044_sample, ssm2044_process_sample]
  rw [← hcc, ← hrr, ← hgg, ← hgdef, ← hkdef]
  set fbin := soft_saturation (a * gg)
      (if p.character_mode = 0 then 1.5 * 0.5
       else if p.character_mode = 2 then 1.5 * 2 else 1.5) +
      (if p.self_oscillation then k else k * 0.8) *
        soft_saturation st.feedback_sample (2 * p.warmth_amount) with hfbdef
  have hs1 : |st.state1 + g * (fbin - st.state1)| ≤ B :=
    ssm_stage_bound _ _ g B hg0 (by linarith) i1 hfbin
  have hs2 : |st.state2 + g * (st.state1 + g * (fbin - st.state1) - st.state2)| ≤ B :=
    ssm_stage_bound _ _ g B hg0 (by linarith) i2 hs1
  have hs3 : |st.state3 + g * (st.state2 + g * (st.state1 + g * (fbin - st.state1) - st.state2) - st.state3)| ≤ B :=
    ssm_stage_bound _ _ g B hg0 (by linarith) i3 hs2
  have hs4 : |st.state4 + g * (st.state3 + g * (st.state2 + g * (st.state1 + g * (fbin - st.state1) - st.state2) - st.state3) - st.state4)| ≤ B :=
    ssm_stage_bound _ _ g B hg0 (by linarith) i4 hs3
  exact ⟨le_trans (abs_denormal_fix_le _) hs4,
    le_trans (abs_denormal_fix_le _) hs1,
    le_trans (abs_denormal_fix_le _) hs2,
    le_trans (abs_denormal_fix_le _) hs3,
    le_trans (abs_denormal_fix_le _) hs4, hs4⟩

/-- C3 (amended): for every warmth strictly above zero, every input stream
and all clamped parameter values, the ssm2044~ output stays bounded by
4/3 + 16 / (2 * warmth) from the all-zero initial state. -/
theorem C3_ssm2044_bounded_amended (p : Ssm2044Params) (ins : ℕ → ℝ × ℝ × ℝ × ℝ)
    (hw : 0 < p.warmth_amount) (n : ℕ) :
    |ssm2044_out p ins n| ≤ 4 / 3 + 16 / (2 * p.warmth_amount) := by
  have hInv : ∀ m : ℕ, ssm_inv (4 / 3 + 16 / (2 * p.warmth_amount)) (ssm2044_states p ins m) := by
    intro m
    induction m with
    | zero =>
      have hBpos : 0 ≤ 4 / 3 + 16 / (2 * p.warmth_amount) := by positivity
      refine ⟨?_, ?_, ?_, ?_, ?_⟩ <;>
        simp [ssm2044_states, ssm2044_initial_state, abs_of_nonneg, hBpos]
    | succ m ih =>
      exact (ssm2044_sample_bounded p (ssm2044_states p ins m)
        (ins m).1 (ins m).2.1 (ins m).2.2.1 (ins m).2.2.2 hw ih).2
  exact (ssm2044_sample_bounded p (ssm2044_states p ins n)
    (ins n).1 (ins n).2.1 (ins n).2.2.1 (ins n).2.2.2 hw (hInv n)).1

theorem C3_ssm2044_bounded_amended_witness :
    (0:ℝ) < 1 / 2 ∧
    |ssm2044_out
      { sr := 44100, character_mode := 1, self_oscillation := true,
        warmth_amount := 1 / 2, resonance_compensation := true }
      (fun _ => (0, 1000, 1 / 2, 1)) 0| ≤ 4 / 3 + 16 / (2 * (1 / 2)) := by
  constructor
  · norm_num
  · exact C3_ssm2044_bounded_amended
      { sr := 44100, character_mode := 1, self_oscillation := true,
        warmth_amount := 1 / 2, resonance_compensation := true }
      (fun _ => (0, 1000, 1 / 2, 1)) (by norm_num) 0

theorem ssmC3_coefficients :
    compute_filter_coefficients ssmC3Params 11025 3.5 = (1 / 2, 280 / 41) := by
  simp only [compute_filter_coefficients, ssmC3Params]
  rw [show clamp 11025 20 (44100 * 0.45) = 11025 from by norm_num [clamp]]
  rw [show 2 * Real.pi * (11025:ℝ) * (1 / 44100) * 0.5 = Real.pi / 4 from by ring]
  rw [Real.tan_pi_div_four]
  norm_num [clamp, Prod.ext_iff]

theorem ssmC3_step_eq (st : Ssm2044State) :
    ssm2044_sample ssmC3Params st 1 11025 3.5 1 =
      (denormal_fix (ssmC3e4 st),
       { state1 := denormal_fix (ssmC3e1 st)
         state2 := denormal_fix (ssmC3e2 st)
         state3 := denormal_fix (ssmC3e3 st)
         state4 := denormal_fix (ssmC3e4 st)
         feedback_sample := ssmC3e4 st }) := by
  simp only [ssm2044_sample, ssm2044_process_sample]
  rw [show clamp 11025 20 20000 = 11025 from by norm_num [clamp]]
  rw [show clamp 3.5 0 4 = 3.5 from by norm_num [clamp]]
  rw [show clamp 1 0 4 = 1 from by norm_num [clamp]]
  rw [ssmC3_coefficients]
  have hchar : (if ssmC3Params.character_mode = 0 then (1.5 * 0.5 : ℝ)
       else if ssmC3Params.character_mode = 2 then 1.5 * 2 else 1.5) = 1.5 := by
    norm_num [ssmC3Params]
  have hfb : soft_saturation st.feedback_sample (2 * ssmC3Params.warmth_amount) =
      st.feedback_sample := by
    norm_num [ssmC3Params, soft_saturation]
  have hsat : soft_saturation (1 * 1) 1.5 = Real.tanh (1 * 1 * 1.5) / 1.5 := by
    norm_num [soft_saturation]
  have hso : ssmC3Params.self_oscillation = true := rfl
  rw [hchar, hfb, hsat, hso]
  simp only [if_true, eq_self_iff_true]
  norm_num [ssmC3fbin, ssmC3e1, ssmC3e2, ssmC3e3, ssmC3e4, Prod.ext_iff]

/-- The saturated constant +1 input contributes at least 1/2 to the feedback
loop input at every step: tanh(1.5)/1.5 ≥ 1/2 (via e³ ≥ 8). -/
theorem ssmC3_u_ge : (1 : ℝ) / 2 ≤ Real.tanh (1 * 1 * 1.5) / 1.5 := by
  have h15 : (1 * 1 * 1.5 : ℝ) = 1.5 := by norm_num
  rw [h15, tanh_eq_one_sub]
  have h3 : (2 * (1.5 : ℝ)) = 3 := by norm_num
  rw [h3]
  have hexp3 : (8 : ℝ) ≤ Real.exp 3 := by
    have h1 : Real.exp 3 = Real.exp 1 * Real.exp 1 * Real.exp 1 := by
      rw [← Real.exp_add, ← Real.exp_add]; norm_num
    have h2 := Real.exp_one_gt_d9
    nlinarith [Real.exp_pos 1]
  have hpos : (0 : ℝ) < Real.exp 3 + 1 := by positivity
  have hb : 2 / (Real.exp 3 + 1) ≤ 2 / 9 := by
    rw [div_le_div_iff₀ hpos (by norm_num : (0:ℝ) < 9)]
    linarith
  rw [le_div_iff₀ (by norm_num : (0:ℝ) < 1.5)]
  linarith

/-- One growth step of the C3 configuration: if the filter state dominates the
pattern (6,5,5,1,1)·ε with ε ≥ 1/80, then after one sample it dominates the
same pattern with ε replaced by (21/20)·ε, and the output sample is at least
(21/20)·ε. -/
theorem ssmC3_grow (st : Ssm2044State) (e : ℝ) (he : 1 / 80 ≤ e)
    (h1 : 6 * e ≤ st.state1) (h2 : 5 * e ≤ st.state2) (h3 : 5 * e ≤ st.state3)
    (h4 : e ≤ st.state4) (h5 : e ≤ st.feedback_sample) :
    (6 * (21 / 20 * e) ≤ ((ssm2044_sample ssmC3Params st 1 11025 3.5 1).2).state1 ∧
     5 * (21 / 20 * e) ≤ ((ssm2044_sample ssmC3Params st 1 11025 3.5 1).2).state2 ∧
     5 * (21 / 20 * e) ≤ ((ssm2044_sample ssmC3Params st 1 11025 3.5 1).2).state3 ∧
     21 / 20 * e ≤ ((ssm2044_sample ssmC3Params st 1 11025 3.5 1).2).state4 ∧
     21 / 20 * e ≤ ((ssm2044_sample ssmC3Params st 1 11025 3.5 1).2).feedback_sample) ∧
    21 / 20 * e ≤ (ssm2044_sample ssmC3Params st 1 11025 3.5 1).1 := by
  have hu := ssmC3_u_ge
  have he1 : 263 / 41 * e ≤ ssmC3e1 st := by
    simp only [ssmC3e1, ssmC3fbin]; linarith
  have he2 : 234 / 41 * e ≤ ssmC3e2 st := by
    simp only [ssmC3e2]; linarith
  have he3 : 439 / 82 * e ≤ ssmC3e3 st := by
    simp only [ssmC3e3]; linarith
  have he4 : 521 / 164 * e ≤ ssmC3e4 st := by
    simp only [ssmC3e4]; linarith
  have hsmall : (1 : ℝ) / 10 ^ 15 ≤ 1 / 80 := by norm_num
  have hd1 : denormal_fix (ssmC3e1 st) = ssmC3e1 st :=
    denormal_fix_eq_of_ge _ (1 / 80) hsmall (by linarith)
  have hd2 : denormal_fix (ssmC3e2 st) = ssmC3e2 st :=
    denormal_fix_eq_of_ge _ (1 / 80) hsmall (by linarith)
  have hd3 : denormal_fix (ssmC3e3 st) = ssmC3e3 st :=
    denormal_fix_eq_of_ge _ (1 / 80) hsmall (by linarith)
  have hd4 : denormal_fix (ssmC3e4 st) = ssmC3e4 st :=
    denormal_fix_eq_of_ge _ (1 / 80) hsmall (by linarith)
  rw [ssmC3_step_eq st]
  refine ⟨⟨?_, ?_, ?_, ?_, ?_⟩, ?_⟩
  · show 6 * (21 / 20 * e) ≤ denormal_fix (ssmC3e1 st)
    rw [hd1]; linarith
  · show 5 * (21 / 20 * e) ≤ denormal_fix (ssmC3e2 st)
    rw [hd2]; linarith
  · show 5 * (21 / 20 * e) ≤ denormal_fix (ssmC3e3 st)
    rw [hd3]; linarith
  · show 21 / 20 * e ≤ denormal_fix (ssmC3e4 st)
    rw [hd4]; linarith
  · show 21 / 20 * e ≤ ssmC3e4 st
    linarith
  · show 21 / 20 * e ≤ denormal_fix (ssmC3e4 st)
    rw [hd4]; linarith

/-- The C3 filter state after n+1 samples dominates the geometric pattern
(6,5,5,1,1)·(21/20)^n·(1/80). -/
theorem ssmC3_states_ge (n : ℕ) :
    6 * ((21 / 20 : ℝ) ^ n * (1 / 80)) ≤
      (ssm2044_states ssmC3Params ssmC3Inputs (n + 1)).state1 ∧
    5 * ((21 / 20 : ℝ) ^ n * (1 / 80)) ≤
      (ssm2044_states ssmC3Params ssmC3Inputs (n + 1)).state2 ∧
    5 * ((21 / 20 : ℝ) ^ n * (1 / 80)) ≤
      (ssm2044_states ssmC3Params ssmC3Inputs (n + 1)).state3 ∧
    ((21 / 20 : ℝ) ^ n * (1 / 80)) ≤
      (ssm2044_states ssmC3Params ssmC3Inputs (n + 1)).state4 ∧
    ((21 / 20 : ℝ) ^ n * (1 / 80)) ≤
      (ssm2044_states ssmC3Params ssmC3Inputs (n + 1)).feedback_sample := by
  induction n with
  | zero =>
    have hu := ssmC3_u_ge
    have hstep : ssm2044_states ssmC3Params ssmC3Inputs (0 + 1) =
        (ssm2044_sample ssmC3Params ssm2044_initial_state 1 11025 3.5 1).2 := rfl
    have hb1 : (1 : ℝ) / 4 ≤ ssmC3e1 ssm2044_initial_state := by
      simp only [ssmC3e1, ssmC3fbin, ssm2044_initial_state]; linarith
    have hb2 : (1 : ℝ) / 8 ≤ ssmC3e2 ssm2044_initial_state := by
      have h := hb1
      simp only [ssmC3e2, ssm2044_initial_state] at h ⊢; linarith
    have hb3 : (1 : ℝ) / 16 ≤ ssmC3e3 ssm2044_initial_state := by
      have h := hb2
      simp only [ssmC3e3, ssm2044_initial_state] at h ⊢; linarith
    have hb4 : (1 : ℝ) / 32 ≤ ssmC3e4 ssm2044_initial_state := by
      have h := hb3
      simp only [ssmC3e4, ssm2044_initial_state] at h ⊢; linarith
    have hd1 : denormal_fix (ssmC3e1 ssm2044_initial_state) =
        ssmC3e1 ssm2044_initial_state :=
      denormal_fix_eq_of_ge _ (1 / 4) (by norm_num) hb1
    have hd2 : denormal_fix (ssmC3e2 ssm2044_initial_state) =
        ssmC3e2 ssm2044_initial_state :=
      denormal_fix_eq_of_ge _ (1 / 8) (by norm_num) hb2
    have hd3 : denormal_fix (ssmC3e3 ssm2044_initial_state) =
        ssmC3e3 ssm2044_initial_state :=
      denormal_fix_eq_of_ge _ (1 / 16) (by norm_num) hb3
    have hd4 : denormal_fix (ssmC3e4 ssm2044_initial_state) =
        ssmC3e4 ssm2044_initial_state :=
      denormal_fix_eq_of_ge _ (1 / 32) (by norm_num) hb4
    rw [hstep, ssmC3_step_eq]
    refine ⟨?_, ?_, ?_, ?_, ?_⟩
    · show 6 * ((21 / 20 : ℝ) ^ 0 * (1 / 80)) ≤
        denormal_fix (ssmC3e1 ssm2044_initial_state)
      rw [hd1, pow_zero]; linarith
    · show 5 * ((21 / 20 : ℝ) ^ 0 * (1 / 80)) ≤
        denormal_fix (ssmC3e2 ssm2044_initial_state)
      rw [hd2, pow_zero]; linarith
    · show 5 * ((21 / 20 : ℝ) ^ 0 * (1 / 80)) ≤
        denormal_fix (ssmC3e3 ssm2044_initial_state)
      rw [hd3, pow_zero]; linarith
    · show ((21 / 20 : ℝ) ^ 0 * (1 / 80)) ≤
        denormal_fix (ssmC3e4 ssm2044_initial_state)
      rw [hd4, pow_zero]; linarith
    · show ((21 / 20 : ℝ) ^ 0 * (1 / 80)) ≤ ssmC3e4 ssm2044_initial_state
      rw [pow_zero]; linarith
  | succ n ih =>
    have hstep : ssm2044_states ssmC3Params ssmC3Inputs (n + 1 + 1) =
        (ssm2044_sample ssmC3Params (ssm2044_states ssmC3Params ssmC3Inputs (n + 1))
          1 11025 3.5 1).2 := rfl
    have hone : (1 : ℝ) ≤ (21 / 20) ^ n := one_le_pow₀ (by norm_num)
    have hgrow := ssmC3_grow (ssm2044_states ssmC3Params ssmC3Inputs (n + 1))
      ((21 / 20) ^ n * (1 / 80)) (by linarith)
      ih.1 ih.2.1 ih.2.2.1 ih.2.2.2.1 ih.2.2.2.2
    have hpow : ((21 / 20 : ℝ)) ^ (n + 1) * (1 / 80) =
        21 / 20 * ((21 / 20) ^ n * (1 / 80)) := by
      rw [pow_succ]; ring
    rw [hstep, hpow]
    exact hgrow.1

/-- Output sample n+1 of the C3 configuration is at least (21/20)^n/80: the
output grows geometrically. -/
theorem ssmC3_out_ge (n : ℕ) :
    ((21 / 20 : ℝ)) ^ n * (1 / 80) ≤ ssmC3_out (n + 1) := by
  have hst := ssmC3_states_ge n
  have hone : (1 : ℝ) ≤ (21 / 20) ^ n := one_le_pow₀ (by norm_num)
  have hgrow := ssmC3_grow (ssm2044_states ssmC3Params ssmC3Inputs (n + 1))
    ((21 / 20) ^ n * (1 / 80)) (by linarith)
    hst.1 hst.2.1 hst.2.2.1 hst.2.2.2.1 hst.2.2.2.2
  have hout := hgrow.2
  have hrz : ssmC3_out (n + 1) =
      (ssm2044_sample ssmC3Params (ssm2044_states ssmC3Params ssmC3Inputs (n + 1))
        1 11025 3.5 1).1 := rfl
  rw [hrz]
  linarith

/-- C3: REFUTED as stated. With every attribute in its documented range
(default character mode 1, warmth 0, resonance compensation on,
self-oscillation enabled) and resonance exactly at the documented
self-oscillation threshold 3.5, a bounded input (constant +1 audio, cutoff
sr/4 = 11025 Hz at sr = 44100) drives the ssm2044~ output to grow without
bound: warmth 0 makes the feedback drive 0, so soft_saturation passes the
feedback sample through unchanged and the loop gain k = 280/41 > 1 makes the
positive feedback diverge geometrically. No bound B holds for all samples. -/
theorem C3_ssm2044_unbounded_counterexample :
    ¬ ∃ B : ℝ, ∀ n : ℕ, |ssmC3_out n| ≤ B := by
  rintro ⟨B, hB⟩
  obtain ⟨m, hm⟩ := pow_unbounded_of_one_lt (80 * B) (by norm_num : (1 : ℝ) < 21 / 20)
  have h1 := ssmC3_out_ge m
  have h2 := hB (m + 1)
  have h3 := le_abs_self (ssmC3_out (m + 1))
  linarith
